import Mathlib

/-!
Shallow embedding of the HTML-to-Markdown conversion core of the
challenge-fetcher repository (src/challenge_fetcher/parser.py), together with
theorems settling the frozen claims about its specification.

Python strings are modelled as `List Char`.  The compiled regular expressions
of parser.py are modelled by specialised executable scanners whose behaviour
is hand-derived from Python `re` semantics (leftmost match, greedy/lazy
quantifiers with backtracking, `.` not matching a newline, `^` anchoring at
the start of the string).  The bs4 element tree is modelled by a mutual
inductive of element and text nodes carrying exactly the attributes the code
reads (tag name, class list, id, href, src).
-/

/-- Convert a Lean string literal to the `List Char` text representation. -/
def lit (s : String) : List Char := s.data

/-- Python exception kinds raised by the conversion code, with the payload the
code puts in the message (file name, URL or tag name). -/
inductive PErr where
  | typeError
  | indexError
  | attributeError
  | valueError (msg : List Char)
  | keyError (name : List Char)
  | notImplementedError (info : List Char)
deriving DecidableEq, Repr

instance {ε α : Type} [DecidableEq ε] [DecidableEq α] : DecidableEq (Except ε α) := fun x y =>
  match x, y with
  | .ok a, .ok b =>
    if h : a = b then .isTrue (by rw [h]) else .isFalse (by intro hh; cases hh; exact h rfl)
  | .error a, .error b =>
    if h : a = b then .isTrue (by rw [h]) else .isFalse (by intro hh; cases hh; exact h rfl)
  | .ok _, .error _ => .isFalse (by intro h; cases h)
  | .error _, .ok _ => .isFalse (by intro h; cases h)

/-- A Python `dict[str, str]` with insertion order, as used for
`remote_content` in parser.py. -/
abbrev Dict : Type := List (List Char × List Char)

/-- The keys of a `Dict`, in insertion order. -/
def Dict.keys (d : Dict) : List (List Char) := d.map (fun p => p.1)

/-- Python `key in dict`. -/
def Dict.containsKey (d : Dict) (k : List Char) : Bool := d.keys.contains k

/-- Python `dict[key] = value` for a fresh key (insertion at the end). -/
def Dict.insert (d : Dict) (k v : List Char) : Dict := d ++ [(k, v)]

/-- Python `dict` truthiness: `not remote_content` is true iff it is empty. -/
def Dict.isEmpty (d : Dict) : Bool := List.isEmpty d

/-- The attributes of a bs4 tag that parser.py reads: the tag name,
`tag.get("class")` (multi-valued, absent when the attribute is missing),
`tag.get("id")`, `tag.get("href")` and `tag.get("src")`. -/
structure ElemData where
  name : List Char
  classes : Option (List (List Char))
  idAttr : Option (List Char)
  href : Option (List Char)
  src : Option (List Char)
deriving DecidableEq, Repr

mutual
/-- A bs4 node: a NavigableString or a Tag with ordered children. -/
inductive Node where
  | text (s : List Char)
  | elem (data : ElemData) (children : NodeList)
deriving DecidableEq, Repr
/-- The ordered children of a tag. -/
inductive NodeList where
  | nil
  | cons (head : Node) (tail : NodeList)
deriving DecidableEq, Repr
end

/-- Build a `NodeList` from a `List Node` (notation helper for examples). -/
def nodes : List Node → NodeList
  | [] => .nil
  | n :: t => .cons n (nodes t)

/-- An element node with only a tag name (class/id/href/src absent). -/
def tagE (name : String) (cs : List Node) : Node :=
  .elem ⟨lit name, none, none, none, none⟩ (nodes cs)

/-- A text node from a string literal. -/
def textE (s : String) : Node := .text (lit s)

mutual
/-- bs4 `tag.text` / `tag.get_text(separator="", strip=False)`: the
concatenation of all descendant strings in document order. -/
def Node.textOf : Node → List Char
  | .text s => s
  | .elem _ cs => cs.textOf
/-- `Node.textOf` over a list of children. -/
def NodeList.textOf : NodeList → List Char
  | .nil => []
  | .cons n t => n.textOf ++ t.textOf
end

mutual
/-- bs4 `find`: first node in pre-order among the descendants satisfying the
predicate (the root itself is not considered, matching bs4 semantics). -/
def Node.findFirst (p : Node → Bool) : Node → Option Node
  | .text _ => none
  | .elem _ cs => NodeList.findFirst p cs
/-- Pre-order search through a list of sibling subtrees. -/
def NodeList.findFirst (p : Node → Bool) : NodeList → Option Node
  | .nil => none
  | .cons n t =>
    if p n then some n
    else match Node.findFirst p n with
      | some r => some r
      | none => NodeList.findFirst p t
end

/-- Does the node have the given tag name? -/
def Node.tagIs (name : List Char) : Node → Bool
  | .text _ => false
  | .elem d _ => d.name = name

/-- bs4 `findChild(name)` used as an existence test: is there a descendant
element with the given tag name? -/
def Node.hasDescendantTag (name : List Char) (n : Node) : Bool :=
  (Node.findFirst (Node.tagIs name) n).isSome

/-- Does the element carry the given class (bs4 `class_=` matching on the
multi-valued class attribute)? -/
def Node.hasClass (c : List Char) : Node → Bool
  | .text _ => false
  | .elem d _ => match d.classes with
    | none => false
    | some cs => cs.contains c

/-- Does the element have the given id? -/
def Node.idIs (i : List Char) : Node → Bool
  | .text _ => false
  | .elem d _ => d.idAttr = some i

/-!  ### The compiled regular expressions of parser.py, as scanners.  -/

/-- Python `\w` (ASCII part): letters, digits and underscore. -/
def isWordChar (c : Char) : Bool := c.isAlphanum || c = '_'

/-- CHALLENGE_URL_REGEX = `^problem=(?P<number>\d+)`, anchored search: the url
must start with the literal `problem=` followed by at least one digit; the
`number` group greedily captures the maximal leading digit run. -/
def CHALLENGE_URL_search (u : List Char) : Option (List Char) :=
  if (lit "problem=").isPrefixOf u then
    let num := (u.drop 8).takeWhile Char.isDigit
    if num.isEmpty then none else some num
  else none

/-- ABOUT_URL_REGEX = `^about=(\w+)`: the url must start with `about=`
followed by at least one word character. -/
def ABOUT_URL_search (u : List Char) : Option (List Char) :=
  if (lit "about=").isPrefixOf u then
    let w := (u.drop 6).takeWhile isWordChar
    if w.isEmpty then none else some w
  else none

/-- `(?P<filename>.+)`: the greedy any-character group at the end of
RESOURCE_URL_REGEX.  It matches the maximal newline-free run from the current
position and requires at least one character. -/
def filenameAll : List Char → Option (List Char)
  | [] => none
  | c :: t => if c = '\n' then none else some (c :: t.takeWhile (fun x => x ≠ '\n'))

/-- The tail of `(.+\/)?(?P<filename>.+)` after at least one subpath character
has been consumed.  At each character the greedy `.+` of the subpath group
prefers extending (taking a later `/`) over closing the group at a `/` here;
a character can extend only if it is not a newline. -/
def subpathAux : List Char → Option (List Char)
  | [] => none
  | c :: t =>
    match (if c ≠ '\n' then subpathAux t else none) with
    | some r => some r
    | none => if c = '/' then filenameAll t else none

/-- `(.+\/)?(?P<filename>.+)`: the optional greedy subpath group is tried
first (it needs at least one character before its `/`); if no split succeeds
the whole remainder is the filename. -/
def filenamePart (r : List Char) : Option (List Char) :=
  match r with
  | [] => none
  | c :: t =>
    match (if c ≠ '\n' then subpathAux t else none) with
    | some res => some res
    | none => filenameAll r

/-- RESOURCE_URL_REGEX =
`^(project\/)?(resources|images)\/(.+\/)?(?P<filename>.+)`, anchored search.
The optional `project/` prefix is consumed when present (no backtracking
interaction is possible: a url starting with `project/` cannot also start
with `resources/` or `images/`), then `resources/` or `images/`, then the
subpath/filename split.  Returns the `filename` group. -/
def RESOURCE_URL_search (u : List Char) : Option (List Char) :=
  let afterP := if (lit "project/").isPrefixOf u then u.drop 8 else u
  if (lit "resources/").isPrefixOf afterP then filenamePart (afterP.drop 10)
  else if (lit "images/").isPrefixOf afterP then filenamePart (afterP.drop 7)
  else none

/-!  FILE_NAME_REGEX = `^(?:.+?_)?(?P<filename>.+\..+?)(?:\?.*)?$`.  -/

/-- Python `$` without MULTILINE: matches at the end of the string or just
before a single final newline. -/
def dollarAt (l : List Char) : Bool := l = [] || l = ['\n']

/-- `(?:\?.*)?$`: the greedy optional query group is tried first (a literal
`?` then a newline-free run), then `$`. -/
def tryQueryDollar (l : List Char) : Bool :=
  (match l with
   | c :: t => if c = '?' then dollarAt (t.dropWhile (fun x => x ≠ '\n')) else false
   | [] => false)
  || dollarAt l

/-- `.+?` after the `\.` of FILE_NAME_REGEX: lazily consume newline-free
characters (at least one) until `(?:\?.*)?$` matches at the remainder.
Returns the consumed characters. -/
def lazyAfterDot : List Char → Option (List Char)
  | [] => none
  | c :: t =>
    if c = '\n' then none
    else if tryQueryDollar t then some [c]
    else (lazyAfterDot t).map (fun r => c :: r)

/-- The tail of `.+\..+?(?:\?.*)?$` after at least one character has been
consumed by the greedy `.+`.  At each character, extending `.+` (hence a later
`.`) is preferred over taking the dot here. -/
def restSplitAux : List Char → Option (List Char)
  | [] => none
  | c :: t =>
    match (if c ≠ '\n' then (restSplitAux t).map (fun r => c :: r) else none) with
    | some r => some r
    | none => if c = '.' then (lazyAfterDot t).map (fun r => '.' :: r) else none

/-- `(?P<filename>.+\..+?)(?:\?.*)?$`: greedy `.+` (at least one character),
a literal dot, lazy `.+?`, optional query, end anchor.  Returns the
`filename` capture. -/
def restGreedyDot : List Char → Option (List Char)
  | [] => none
  | c :: t => if c = '\n' then none else (restSplitAux t).map (fun r => c :: r)

/-- `(?:.+?_)?` followed by the filename part, after at least one prefix
character has been consumed.  The lazy `.+?` stops at the earliest `_` whose
remainder parses; otherwise it extends (the consumed character, which may
itself be `_`, must not be a newline). -/
def fileNamePrefixAux : List Char → Option (List Char)
  | [] => none
  | c :: t =>
    match (if c = '_' then restGreedyDot t else none) with
    | some r => some r
    | none => if c ≠ '\n' then fileNamePrefixAux t else none

/-- FILE_NAME_REGEX.search: the greedy optional prefix group `(?:.+?_)?` is
tried first (consuming at least one character then a `_`); if no prefix choice
lets the rest match, the group is dropped.  Returns the `filename` group. -/
def FILE_NAME_search (l : List Char) : Option (List Char) :=
  match l with
  | [] => none
  | c :: t =>
    match (if c ≠ '\n' then fileNamePrefixAux t else none) with
    | some r => some r
    | none => restGreedyDot l

/-- parser.sanitise_file_name: run FILE_NAME_REGEX against the raw filename
and return the `filename` group; a failed match raises ValueError with the
offending filename in the message. -/
def sanitise_file_name (file_name : List Char) : Except PErr (List Char) :=
  match FILE_NAME_search file_name with
  | none => .error (.valueError file_name)
  | some f => .ok f

example : FILE_NAME_search (lit "p096_1.png?1678992052") = some (lit "1.png") := by decide
example : FILE_NAME_search (lit "p096_my_name.txt") = some (lit "my_name.txt") := by decide
example : FILE_NAME_search (lit "noprefix.txt") = some (lit "noprefix.txt") := by decide
example : FILE_NAME_search (lit "p001_img.png?v=1.2") = some (lit "img.png?v=1.2") := by decide
example : RESOURCE_URL_search (lit "project/images/sub/p096_1.png?123") = some (lit "p096_1.png?123") := by decide
example : RESOURCE_URL_search (lit "resources/a.txt") = some (lit "a.txt") := by decide
example : RESOURCE_URL_search (lit "problem=12") = none := by decide
example : CHALLENGE_URL_search (lit "problem=123about=x") = some (lit "123") := by decide
example : CHALLENGE_URL_search (lit "problem=") = none := by decide
example : ABOUT_URL_search (lit "about=credits") = some (lit "credits") := by decide

/-!  ### Inline formatting converter (parser.py lines 328-411).  -/

/-- BASIC_HTML_COLOURS: the 16 basic colour keywords of CSS3. -/
def BASIC_HTML_COLOURS : List (List Char) :=
  [lit "black", lit "silver", lit "gray", lit "white", lit "maroon", lit "red",
   lit "purple", lit "fuchsia", lit "green", lit "lime", lit "olive",
   lit "yellow", lit "navy", lit "blue", lit "teal", lit "aqua"]

/-- parser.get_markdown_from_formatted_tag.  `ok none` means the tag carries
no recognised formatting and is left for later passes.  A `span` without a
class attribute raises TypeError (the code indexes `tag.get("class")[0]` and
`get` returns None); a `span` with an empty class list raises IndexError. -/
def get_markdown_from_formatted_tag (n : Node) : Except PErr (Option (List Char)) :=
  match n with
  | .text _ => .error (.notImplementedError (lit "NavigableString"))
  | .elem d cs =>
    if d.name = lit "span" then
      match d.classes with
      | none => .error .typeError
      | some [] => .error .indexError
      | some (colour :: _) =>
        if BASIC_HTML_COLOURS.contains colour then
          let base := lit "\\color\x7b" ++ colour ++ lit "\x7d\x7b" ++ (Node.elem d cs).textOf ++ lit "\x7d"
          let withBold := if Node.hasDescendantTag (lit "b") (Node.elem d cs)
              || Node.hasDescendantTag (lit "strong") (Node.elem d cs) then lit "\\bf" ++ base else base
          let withItalic := if Node.hasDescendantTag (lit "i") (Node.elem d cs)
              || Node.hasDescendantTag (lit "em") (Node.elem d cs) then lit "\\it" ++ withBold else withBold
          .ok (some (lit "$\x7b" ++ withItalic ++ lit "\x7d$"))
        else .ok none
    else if d.name = lit "i" || d.name = lit "em" then
      .ok (some ('*' :: (Node.elem d cs).textOf ++ ['*']))
    else if d.name = lit "b" || d.name = lit "strong" then
      .ok (some (lit "**" ++ (Node.elem d cs).textOf ++ lit "**"))
    else .error (.notImplementedError d.name)

mutual
/-- One step of parser.convert_text_formatting_to_markdown's loop over
`content.find_all(["span", "i", "b"])`, recast as a pre-order traversal:
find_all snapshots the pre-order descendant list before the loop, so every
matching element is processed exactly once, in document order, and — since an
element's proper descendants come after it in that order — each element still
holds its original subtree (hence its original `.text`) when its turn comes.
When a matching element is replaced, its descendants are thereby detached
together with it; bs4 `replace_with` on such a descendant still succeeds
(the element's own parent is the detached tag, not None), mutating only the
detached subtree, which never reappears in the output.  So a replaced
element's descendants are walked purely for their side effects — each
matching one has get_markdown_from_formatted_tag evaluated, which can raise
(TypeError/IndexError for ill-classed spans) — and the subtree the walk
builds for them is discarded. -/
def cfmtNode : Node → Except PErr Node
  | .text s => .ok (.text s)
  | .elem d cs =>
    if d.name = lit "span" || d.name = lit "i" || d.name = lit "b" then
      match get_markdown_from_formatted_tag (.elem d cs) with
      | .error e => .error e
      | .ok none =>
        match cfmtList cs with
        | .error e => .error e
        | .ok cs' => .ok (.elem d cs')
      | .ok (some s) =>
        match cfmtList cs with
        | .error e => .error e
        | .ok _ => .ok (.text s)
    else
      match cfmtList cs with
      | .error e => .error e
      | .ok cs' => .ok (.elem d cs')
/-- `cfmtNode` over a list of sibling subtrees, left to right. -/
def cfmtList : NodeList → Except PErr NodeList
  | .nil => .ok .nil
  | .cons n t =>
    match cfmtNode n with
    | .error e => .error e
    | .ok n' =>
      match cfmtList t with
      | .error e => .error e
      | .ok t' => .ok (.cons n' t')
end

/-- parser.convert_text_formatting_to_markdown applied to the description
root: find_all searches the descendants, so the root itself is not a
candidate for replacement. -/
def convert_text_formatting_to_markdown (n : Node) : Except PErr Node :=
  match n with
  | .text s => .ok (.text s)
  | .elem d cs =>
    match cfmtList cs with
    | .error e => .error e
    | .ok cs' => .ok (.elem d cs')

example :
    convert_text_formatting_to_markdown
      (tagE "div" [tagE "b" [textE "word"]]) =
    .ok (tagE "div" [textE "**word**"]) := by decide

example :
    convert_text_formatting_to_markdown
      (tagE "div" [tagE "strong" [textE "word"]]) =
    .ok (tagE "div" [tagE "strong" [textE "word"]]) := by decide

example :
    convert_text_formatting_to_markdown
      (tagE "div" [.elem ⟨lit "span", none, none, none, none⟩ (nodes [textE "x"])]) =
    .error .typeError := by decide

example :
    convert_text_formatting_to_markdown
      (tagE "div" [.elem ⟨lit "span", some [lit "red"], none, none, none⟩ (nodes [textE "x"])]) =
    .ok (tagE "div" [textE "$\x7b\\color\x7bred\x7d\x7bx\x7d\x7d$"]) := by decide

/-!  ### Link/resource rewriter (parser.py lines 414-563).  -/

/-- Modelled from the spec: `challenge_fetcher.scraper.URL_BASE`, the site's
base URL, from the missing module challenge_fetcher/scraper.py (parser.py's
comments name https://projecteuler.net/). -/
def URL_BASE : List Char := lit "https://projecteuler.net/"

/-- Modelled from the spec: `challenge_fetcher.scraper.CHALLENGE_URL_BASE`,
the canonical challenge-page URL up to the numeric path, from the missing
module challenge_fetcher/scraper.py. -/
def CHALLENGE_URL_BASE : List Char := URL_BASE ++ lit "problem="

/-- parser.replace_tag_with_markdown_url.  `tagText` is `tag.text`, `url` the
href/src attribute (None raises TypeError inside `re.search`).
Classification priority: challenge regex first, then resource, then about;
no match raises NotImplementedError naming the URL.  Returns the Markdown
replacement text and the updated remote_content dictionary; the final
`tag.replace_with` succeeds whether or not the tag is still attached to the
document (a descendant of an earlier-replaced tag still has that detached
tag as its parent, so bs4 raises no error and mutates the detached subtree),
so the caller decides whether the replacement text is visible in the
output. -/
def replace_tag_with_markdown_url (tagText : List Char) (url : Option (List Char))
    (remote_content : Dict) (is_image : Bool) : Except PErr (List Char × Dict) :=
  let finish : List Char → Dict → Except PErr (List Char × Dict) := fun link_text d =>
    .ok ((if is_image then '!' :: link_text else link_text), d)
  match url with
  | none => .error .typeError
  | some u =>
    match CHALLENGE_URL_search u with
    | some number =>
      finish ('[' :: tagText ++ lit "](" ++ CHALLENGE_URL_BASE ++ number ++ lit ")") remote_content
    | none =>
      match RESOURCE_URL_search u with
      | some raw =>
        match sanitise_file_name raw with
        | .error e => .error e
        | .ok file_name =>
          if remote_content.containsKey file_name then .error (.keyError file_name)
          else
            finish ('[' :: file_name ++ lit "](./" ++ file_name ++ lit ")")
              (remote_content.insert file_name (URL_BASE ++ u))
      | none =>
        match ABOUT_URL_search u with
        | some _ =>
          finish ('[' :: tagText ++ lit "](" ++ URL_BASE ++ u ++ lit ")") remote_content
        | none => .error (.notImplementedError u)

mutual
/-- The loop of parser.convert_urls_to_markdown over
`content.find_all(["a", "img"])`, recast as a pre-order traversal: find_all
snapshots the pre-order descendant list before the loop, so every `a`/`img`
element is processed exactly once, in document order, each still holding its
original subtree (its proper descendants come after it) when its URL is
classified and its `tag.text` read.  For an `a` tag the URL is the href
attribute, for an `img` tag the src attribute.  When an element is replaced
its descendants are detached with it; bs4 `replace_with` on such a
descendant still succeeds (its parent is the detached tag, not None), so
nested `a`/`img` elements are still classified — updating the
remote-content dictionary and raising KeyError/NotImplementedError exactly
as attached ones do — while the subtree built for them is discarded, their
replacement text mutating only the detached subtree. -/
def walkTags : Node → Dict → Except PErr (Node × Dict)
  | .text s, d => .ok (.text s, d)
  | .elem dat cs, d =>
    if dat.name = lit "a" || dat.name = lit "img" then
      let url := if dat.name = lit "a" then dat.href else dat.src
      let is_image := dat.name = lit "img"
      match replace_tag_with_markdown_url (NodeList.textOf cs) url d is_image with
      | .error e => .error e
      | .ok (md, d') =>
        match walkTagsList cs d' with
        | .error e => .error e
        | .ok (_, d'') => .ok (.text md, d'')
    else
      match walkTagsList cs d with
      | .error e => .error e
      | .ok (cs', d') => .ok (.elem dat cs', d')
/-- `walkTags` over sibling subtrees, left to right, threading the dict. -/
def walkTagsList : NodeList → Dict → Except PErr (NodeList × Dict)
  | .nil, d => .ok (.nil, d)
  | .cons n t, d =>
    match walkTags n d with
    | .error e => .error e
    | .ok (n', d') =>
      match walkTagsList t d' with
      | .error e => .error e
      | .ok (t', d'') => .ok (.cons n' t', d'')
end

/-- parser.convert_urls_to_markdown: rewrite every `a`/`img` descendant of
the content tag (find_all searches the descendants, so the root itself is
not a candidate) and collect the remote-content dictionary; an empty
dictionary is returned as None. -/
def convert_urls_to_markdown (content : Node) : Except PErr (Node × Option Dict) :=
  match content with
  | .text s => .ok (.text s, none)
  | .elem dat cs =>
    match walkTagsList cs [] with
    | .error e => .error e
    | .ok (cs', d) => .ok (.elem dat cs', if d.isEmpty then none else some d)

/-- An `a` element with an href and a single text child. -/
def aE (href : String) (txt : String) : Node :=
  .elem ⟨lit "a", none, none, some (lit href), none⟩ (nodes [textE txt])

/-- An `img` element with a src and no children. -/
def imgE (src : String) : Node :=
  .elem ⟨lit "img", none, none, none, some (lit src)⟩ .nil

example :
    convert_urls_to_markdown (tagE "div" [aE "problem=7" "challenge 7"]) =
    .ok (tagE "div" [textE "[challenge 7](https://projecteuler.net/problem=7)"], none) := by decide

example :
    convert_urls_to_markdown
      (tagE "div" [imgE "project/images/p096_1.png", aE "project/resources/p096_sudoku.txt" "sudoku.txt"]) =
    .ok (tagE "div" [textE "![1.png](./1.png)", textE "[sudoku.txt](./sudoku.txt)"],
      some [(lit "1.png", lit "https://projecteuler.net/project/images/p096_1.png"),
            (lit "sudoku.txt", lit "https://projecteuler.net/project/resources/p096_sudoku.txt")]) := by decide

example :
    convert_urls_to_markdown
      (tagE "div" [aE "resources/p001_data.txt" "x", aE "images/p002_data.txt" "y"]) =
    .error (.keyError (lit "data.txt")) := by decide

example :
    convert_urls_to_markdown (tagE "div" [aE "mailto:someone" "link"]) =
    .error (.notImplementedError (lit "mailto:someone")) := by decide

example :
    convert_urls_to_markdown
      (tagE "div" [.elem ⟨lit "a", none, none, some (lit "problem=1"), none⟩
        (nodes [imgE "images/p001_x.png"])]) =
    .ok (tagE "div" [textE "[](https://projecteuler.net/problem=1)"],
      some [(lit "x.png", lit "https://projecteuler.net/images/p001_x.png")]) := by decide

/-!  ### Text assembler and renderer-compatibility post-processor
(parser.py lines 566-691).  -/

/-- Python `str.isspace` character test, restricted to the whitespace
characters that can occur here (Python also accepts further Unicode space
code points; note that the non-breaking space U+00A0 IS whitespace for
Python's `isspace`/`strip`). -/
def pyIsSpaceChar (c : Char) : Bool :=
  c = ' ' || c = '\t' || c = '\n' || c = '\r' || c = '\x0b' || c = '\x0c' || c = ' '

/-- Python `str.isspace()`: true iff the string is non-empty and every
character is whitespace. -/
def pyIsSpace (l : List Char) : Bool := !l.isEmpty && l.all pyIsSpaceChar

/-- Python `str.strip("\n")`: remove leading and trailing newlines. -/
def stripNewlines (l : List Char) : List Char :=
  ((l.dropWhile (fun c => c = '\n')).reverse.dropWhile (fun c => c = '\n')).reverse

/-- Python `str.strip()`: remove leading and trailing whitespace. -/
def pyStrip (l : List Char) : List Char :=
  ((l.dropWhile pyIsSpaceChar).reverse.dropWhile pyIsSpaceChar).reverse

/-- Fuel-driven worker for Python `str.replace`: scan left to right,
replacing non-overlapping occurrences (the pattern `p₀ :: ps` is split into
head and tail so it is necessarily non-empty).  Every step consumes at least
one character, so fuel equal to the input length always suffices; the fuel is
a termination device only, not part of the modelled semantics. -/
def replaceGo (p₀ : Char) (ps repl : List Char) : Nat → List Char → List Char
  | 0, l => l
  | _ + 1, [] => []
  | fuel + 1, c :: t =>
    if (p₀ :: ps).isPrefixOf (c :: t) then repl ++ replaceGo p₀ ps repl fuel (t.drop ps.length)
    else c :: replaceGo p₀ ps repl fuel t

/-- Python `str.replace(p₀ :: ps, repl)`. -/
def replaceAll (p₀ : Char) (ps repl : List Char) (l : List Char) : List Char :=
  replaceGo p₀ ps repl l.length l

/-- Python `pat in s` substring containment. -/
def containsSub (pat : List Char) : List Char → Bool
  | [] => pat.isPrefixOf []
  | c :: t => pat.isPrefixOf (c :: t) || containsSub pat t


/-- A lazy `.+?` followed by a literal `stop` character: consume newline-free
characters one at a time (at least one) until the next character is `stop`.
Returns the capture and the remainder after `stop`. -/
def lazyPlusTo (stop : Char) : List Char → Option (List Char × List Char)
  | [] => none
  | [_] => none
  | c :: d :: t' =>
    if c = '\n' then none
    else if d = stop then some ([c], t')
    else (lazyPlusTo stop (d :: t')).map (fun p => (c :: p.1, p.2))

theorem lazyPlusTo_length (stop : Char) :
    ∀ l a r, lazyPlusTo stop l = some (a, r) → r.length < l.length := by
  intro l
  induction l with
  | nil => intro a r h; simp [lazyPlusTo] at h
  | cons c t ih =>
    intro a r h
    match t, ih, h with
    | [], _, h => simp [lazyPlusTo] at h
    | d :: t', ih, h =>
      rw [lazyPlusTo] at h
      by_cases hc : c = '\n'
      · simp [hc] at h
      · by_cases hd : d = stop
        · subst hd
          simp [hc] at h
          obtain ⟨-, h2⟩ := h
          subst h2; simp; omega
        · simp [hc, hd] at h
          obtain ⟨a', ha, -⟩ := h
          have := ih a' r ha
          simp at this ⊢; omega

/-- The group part `(.+?)\}(.+?)=` of the \operatorname workaround pattern,
entered just after the literal `\operatorname{`.  The lazy name group
consumes newline-free characters one at a time; at each `}` the candidate
name is tried, i.e. the lazy rest group looks for an `=`; if the rest group
cannot reach an `=`, the name group extends past that `}` (Python
backtracking).  Returns (name, rest, remainder after the `=`). -/
def opMatch : List Char → Option (List Char × List Char × List Char)
  | [] => none
  | [_] => none
  | c :: d :: t' =>
    if c = '\n' then none
    else if d = '\x7d' then
      match lazyPlusTo '=' t' with
      | some (rest, r2) => some ([c], rest, r2)
      | none => (opMatch (d :: t')).map (fun p => (c :: p.1, p.2))
    else (opMatch (d :: t')).map (fun p => (c :: p.1, p.2))

theorem opMatch_length :
    ∀ l n rest r2, opMatch l = some (n, rest, r2) → r2.length < l.length := by
  intro l
  induction l with
  | nil => intro n rest r2 h; simp [opMatch] at h
  | cons c t ih =>
    intro n rest r2 h
    match t, ih, h with
    | [], _, h => simp [opMatch] at h
    | d :: t', ih, h =>
      rw [opMatch] at h
      by_cases hc : c = '\n'
      · simp [hc] at h
      · by_cases hd : d = '\x7d'
        · subst hd
          simp [hc] at h
          match h2 : lazyPlusTo '=' t' with
          | some (rest', r2') =>
            rw [h2] at h; simp at h
            obtain ⟨-, -, h3⟩ := h
            have := lazyPlusTo_length '=' t' rest' r2' h2
            subst h3; simp; omega
          | none =>
            rw [h2] at h; simp at h
            obtain ⟨a', ha, -⟩ := h
            have := ih a' rest r2 ha
            simp at this ⊢; omega
        · simp [hc, hd] at h
          obtain ⟨a', ha, -⟩ := h
          have := ih a' rest r2 ha
          simp at this ⊢; omega

/-- Fuel-driven worker for the `re.sub` of the \operatorname workaround
(pattern `\\operatorname\{(.+?)\}(.+?)=`, replacement
`\\mathop{\\text{\1}}\2=`): at each position, if the literal
`\operatorname{` starts here and `opMatch` completes the match, emit the
replacement and continue after the match; otherwise emit the character and
move on.  Every step consumes at least one character, so fuel equal to the
input length suffices; the fuel is a termination device only. -/
def opSubGo : Nat → List Char → List Char
  | 0, l => l
  | _ + 1, [] => []
  | fuel + 1, c :: t =>
    if (lit "\\operatorname\x7b").isPrefixOf (c :: t) then
      match opMatch ((c :: t).drop 14) with
      | some (n, rest, after) =>
        lit "\\mathop\x7b\\text\x7b" ++ n ++ lit "\x7d\x7d" ++ rest ++ '=' :: opSubGo fuel after
      | none => c :: opSubGo fuel t
    else c :: opSubGo fuel t

/-- `re.sub(r"\\operatorname\{(.+?)\}(.+?)=", r"\\mathop{\\text{\1}}\2=", l)`
from the GitHub workaround branch of parser.sanitise_tag_text. -/
def opSub (l : List Char) : List Char := opSubGo l.length l

theorem opSubGo_irrel :
    ∀ f1 f2 l, l.length ≤ f1 → l.length ≤ f2 → opSubGo f1 l = opSubGo f2 l := by
  intro f1
  induction f1 with
  | zero =>
    intro f2 l h1 _
    have hnil : l = [] := by
      cases l with
      | nil => rfl
      | cons c t => simp at h1
    subst hnil
    cases f2 <;> simp [opSubGo]
  | succ f1 ih =>
    intro f2 l h1 h2
    cases l with
    | nil => cases f2 <;> simp [opSubGo]
    | cons c t =>
      cases f2 with
      | zero => simp at h2
      | succ f2 =>
        rw [opSubGo, opSubGo]
        by_cases hp : (lit "\\operatorname\x7b").isPrefixOf (c :: t)
        · match hm : opMatch ((c :: t).drop 14) with
          | some (n, rest, after) =>
            have hlen := opMatch_length ((c :: t).drop 14) n rest after hm
            simp only [List.length_drop, List.length_cons] at hlen
            have hrec := ih f2 after (by simp at h1; omega) (by simp at h2; omega)
            simp [hp, hm, hrec]
          | none =>
            have hrec := ih f2 t (by simp at h1; omega) (by simp at h2; omega)
            simp [hp, hm, hrec]
        · have hrec := ih f2 t (by simp at h1; omega) (by simp at h2; omega)
          simp [hp, hrec]

/-- The two fixed-width negative lookbehinds `(?<!\$\$)(?<!\$\$\n)` of
MULTILINE_LATEX_REGEX, given the already-scanned characters in reverse
order. -/
def mlLookbehindOk (prevRev : List Char) : Bool :=
  match prevRev with
  | '$' :: '$' :: _ => false
  | '\n' :: '$' :: '$' :: _ => false
  | _ => true

/-- The two negative lookaheads `(?!\$\$)(?!\n\$\$)` of
MULTILINE_LATEX_REGEX, given the remaining characters. -/
def mlLookaheadOk (aft : List Char) : Bool :=
  match aft with
  | '$' :: '$' :: _ => false
  | '\n' :: '$' :: '$' :: _ => false
  | _ => true

/-- `(\w+?)\}`: a lazy word-character group followed by `}`.  Lazy expansion
over word characters stops at the first non-word character, which must be the
`}` (at least one word character is required). -/
def takeWordThenBrace (l : List Char) : Option (List Char × List Char) :=
  let w := l.takeWhile isWordChar
  if w.isEmpty then none
  else match l.drop w.length with
    | '\x7d' :: rest => some (w, rest)
    | _ => none

/-- `\\end\{(\w+?)\}` plus the trailing lookaheads, tried at the current
position. -/
def tryEnd (l : List Char) : Option (List Char × List Char) :=
  if (lit "\\end\x7b").isPrefixOf l then
    match takeWordThenBrace (l.drop 5) with
    | some (e, aft) => if mlLookaheadOk aft then some (e, aft) else none
    | none => none
  else none

/-- `((?:.|\n)+?)` of MULTILINE_LATEX_REGEX: lazily consume characters
(newlines included, at least one) until `\end{...}` with its lookaheads
matches.  Returns (body, end environment name, remainder). -/
def mlBody : List Char → Option (List Char × List Char × List Char)
  | [] => none
  | c :: t =>
    match tryEnd t with
    | some (e, aft) => some ([c], e, aft)
    | none => (mlBody t).map (fun p => (c :: p.1, p.2.1, p.2.2))

/-- Fuel-driven scanner for
`re.sub(MULTILINE_LATEX_REGEX, MULTILINE_LATEX_REPLACEMENT_PATTERN, l)`:
at each position, if the lookbehinds hold and `\begin{<env>}<body>\end{<env>}`
with its lookaheads matches, wrap the matched text in `$$\n...\n$$` and
continue after it (the lookbehind context is the original string, so the
matched text is pushed onto the reversed-prefix accumulator).  Every step
consumes at least one character, so fuel equal to the input length suffices;
the fuel is a termination device only. -/
def mlGo : Nat → List Char → List Char → List Char
  | 0, _, l => l
  | _ + 1, _, [] => []
  | fuel + 1, prevRev, c :: t =>
    if mlLookbehindOk prevRev && (lit "\\begin\x7b").isPrefixOf (c :: t) then
      match takeWordThenBrace ((c :: t).drop 7) with
      | some (env1, r1) =>
        match mlBody r1 with
        | some (body, env2, aft) =>
          let matched := lit "\\begin\x7b" ++ env1 ++ '\x7d' :: body ++
            lit "\\end\x7b" ++ env2 ++ ['\x7d']
          lit "$$\n" ++ matched ++ lit "\n$$" ++ mlGo fuel (matched.reverse ++ prevRev) aft
        | none => c :: mlGo fuel (c :: prevRev) t
      | none => c :: mlGo fuel (c :: prevRev) t
    else c :: mlGo fuel (c :: prevRev) t

/-- The multi-line LaTeX wrapping substitution of parser.sanitise_tag_text. -/
def multilineLatexSub (l : List Char) : List Char := mlGo l.length [] l

/-- The match attempt of LATEX_WORKAROUND_REGEX just after an opening `$`
whose lookbehind held: `(?P<expression>[^$]+?)\$(?!\$)(?P<text>\w+)?`.
Returns (expression, text, remainder); the optional greedy text group may be
empty. -/
def latexTryMatch (t : List Char) : Option (List Char × List Char × List Char) :=
  let expr := t.takeWhile (fun c => c ≠ '$')
  if expr.isEmpty then none
  else match t.drop expr.length with
    | '$' :: aft1 =>
      match aft1 with
      | '$' :: _ => none
      | _ =>
        let txt := aft1.takeWhile isWordChar
        some (expr, txt, aft1.drop txt.length)
    | _ => none

/-- Fuel-driven scanner for
`re.sub(LATEX_WORKAROUND_REGEX, latex_regex_repl, l)`.  `prevc` is the
character before the current position in the original string (for the
`(?<!\$)` lookbehind).  On a match, parser.latex_regex_repl appends the
trailing word, when present, to the expression as `\text{...}` and re-wraps
in `$...$`; scanning resumes after the matched text.  Every step consumes at
least one character, so fuel equal to the input length suffices; the fuel is
a termination device only. -/
def lwGo : Nat → Option Char → List Char → List Char
  | 0, _, l => l
  | _ + 1, _, [] => []
  | fuel + 1, prevc, c :: t =>
    if c = '$' && prevc ≠ some '$' then
      match latexTryMatch t with
      | some (expr, txt, aft) =>
        let lastc := if txt.isEmpty then '$' else txt.getLastD '$'
        let repl := if txt.isEmpty then '$' :: expr ++ ['$']
          else '$' :: expr ++ lit "\\text\x7b" ++ txt ++ lit "\x7d$"
        repl ++ lwGo fuel (some lastc) aft
      | none => c :: lwGo fuel (some c) t
    else c :: lwGo fuel (some c) t

/-- The inline-LaTeX-followed-by-text workaround substitution of
parser.sanitise_tag_text. -/
def latexWorkaroundSub (l : List Char) : List Char := lwGo l.length none l

example : multilineLatexSub (lit "x \\begin\x7balign\x7da+b\\end\x7balign\x7d y") =
    lit "x $$\n\\begin\x7balign\x7da+b\\end\x7balign\x7d\n$$ y" := by decide
example : multilineLatexSub (lit "$$\n\\begin\x7ba\x7db\\end\x7ba\x7d\n$$") =
    lit "$$\n\\begin\x7ba\x7db\\end\x7ba\x7d\n$$" := by decide
example : opSub (lit "\\operatorname\x7blcm\x7d(a,b)=") =
    lit "\\mathop\x7b\\text\x7blcm\x7d\x7d(a,b)=" := by decide
example : latexWorkaroundSub (lit "the $6$th prime") =
    lit "the $6\\text\x7bth\x7d$ prime" := by decide
example : latexWorkaroundSub (lit "block $$x$$ stays") = lit "block $$x$$ stays" := by decide
example : latexWorkaroundSub (lit "a $x$ b") = lit "a $x$ b" := by decide

/-- The children of a tag (`description.contents`). -/
def childrenOf : Node → NodeList
  | .text _ => .nil
  | .elem _ cs => cs

/-- A `NodeList` as a plain Lean list (for the contents-list bookkeeping of
the sanitise_tag_text child loop below). -/
def NodeList.toList : NodeList → List Node
  | .nil => []
  | .cons n t => n :: NodeList.toList t

/-- Tag each element of a contents list with an identity key, keys counting
up from `k`.  The child loop of sanitise_tag_text tells object identity and
value equality apart: `child.replace_with` locates the child by identity
(bs4 `Tag.index` compares with `is`), while `list.remove` removes the first
element comparing equal with `==`, and PageElement equality is by value
(NavigableString compares by string value, Tag structurally by name,
attributes and contents; a string never equals a tag).  The keys model
identity, the `Node` values model `==`. -/
def tagFrom : Nat → List Node → List (Nat × Node)
  | _, [] => []
  | k, c :: t => (k, c) :: tagFrom (k + 1) t

/-- Python `description.contents.remove(child)`: remove the first element of
the live contents list that compares `==` to the child.  (The not-found
ValueError is unreachable in the loop below: a removal is triggered by a
whitespace-valued child and can only take out a whitespace-valued element,
and at least as many of those are present as removals have been asked
for.) -/
def removeFirstEq : List (Nat × Node) → Node → List (Nat × Node)
  | [], _ => []
  | e :: t, v => if e.2 = v then t else e :: removeFirstEq t v

/-- bs4 `child.replace_with(child_text)`: replace the element located by
identity — here by its identity key — keeping its position. -/
def replaceById : List (Nat × Node) → Nat → Node → List (Nat × Node)
  | [], _, _ => []
  | e :: t, i, r => if e.1 = i then (i, r) :: t else e :: replaceById t i r

/-- The child loop of parser.sanitise_tag_text (lines 614-633): iterate over
a copy of `description.contents` (the snapshot, first argument), mutating
the live contents list (second argument).  A child whose text is entirely
whitespace (Python `isspace`, so non-empty) triggers
`contents.remove(child)` — which removes the FIRST element equal to it by
value, possibly an earlier replacement string rather than the child
itself — and any other child is replaced in place, located by identity, with
a text node holding its text with leading/trailing newlines stripped and one
newline added on each side. -/
def sanitiseLoop : List (Nat × Node) → List (Nat × Node) → List (Nat × Node)
  | [], contents => contents
  | (i, c) :: rest, contents =>
    if pyIsSpace c.textOf then
      sanitiseLoop rest (removeFirstEq contents c)
    else
      sanitiseLoop rest
        (replaceById contents i (.text ('\n' :: stripNewlines c.textOf ++ ['\n'])))

/-- The contents of the description once the child loop of sanitise_tag_text
has run over it (snapshot and initial live list both the original
children). -/
def sanitiseChildren (cs : NodeList) : List Node :=
  (sanitiseLoop (tagFrom 0 cs.toList) (tagFrom 0 cs.toList)).map (fun p => p.2)

/-- The `if "\operatorname" in description_text:` guard around the
\operatorname substitution in parser.sanitise_tag_text. -/
def operatornameStep (t : List Char) : List Char :=
  if containsSub (lit "\\operatorname") t then opSub t else t

/-- parser.sanitise_tag_text: assemble the description text from the child
loop, strip surrounding whitespace, escape LaTeX braces (`\{` → `\\{` and
`\}` → `\\}`), wrap unmarked multi-line LaTeX in `$$...$$`, and, when the
GitHub workarounds are requested, apply the \operatorname substitution (under
its containment guard) followed by the inline-LaTeX-then-text
substitution. -/
def sanitise_tag_text (description : Node) (github_workarounds : Bool) : List Char :=
  let kids := sanitiseChildren (childrenOf description)
  let description_text := (kids.map Node.textOf).flatten
  let t1 := pyStrip description_text
  let t2 := replaceAll '\\' (lit "\x7b") (lit "\\\\\x7b") t1
  let t3 := replaceAll '\\' (lit "\x7d") (lit "\\\\\x7d") t2
  let t4 := multilineLatexSub t3
  if github_workarounds then latexWorkaroundSub (operatornameStep t4) else t4

/-- Modelled from the spec: the `Challenge` record of the missing module
challenge_fetcher/challenge.py, as constructed by parser.parse_contents and
compared field by field in tests/test_known_challenges.py (challenge number,
canonical URL, title, Markdown description, optional resource manifest). -/
structure Challenge where
  number : Nat
  url : List Char
  title : List Char
  description : List Char
  remote_content : Option Dict
deriving DecidableEq, Repr

/-- The slice of an HTTP response that parser.parse_contents reads: the `ok`
flag, the final URL, and the HTML content already parsed into a tree (the
bs4/html5lib parsing step is external to the core). -/
structure Response where
  ok : Bool
  url : List Char
  soup : Node

/-- parser.parse_contents: return None on a failed response; locate the
`div#content` anchor (ValueError when absent), the first `h2` inside it
(reading `.text` of a missing find result raises AttributeError), and the
`div.problem_content` description (ValueError when absent); then convert the
URLs in the description, sanitise the (mutated) description's text, and build
the Challenge. -/
def parse_contents (challenge_number : Nat) (response : Response)
    (github_workaround : Bool) : Except PErr (Option Challenge) :=
  if !response.ok then .ok none
  else
    match Node.findFirst
        (fun n => Node.tagIs (lit "div") n && Node.idIs (lit "content") n) response.soup with
    | none => .error (.valueError (lit "Page content <div> was not found."))
    | some page_content =>
      match Node.findFirst (Node.tagIs (lit "h2")) page_content with
      | none => .error .attributeError
      | some h2 =>
        let title := h2.textOf
        match Node.findFirst
            (fun n => Node.tagIs (lit "div") n && Node.hasClass (lit "problem_content") n)
            page_content with
        | none => .error (.valueError (lit "Problem description <div> was not found."))
        | some description =>
          match convert_urls_to_markdown description with
          | .error e => .error e
          | .ok (description', remote_content) =>
            let description_text := sanitise_tag_text description' github_workaround
            .ok (some ⟨challenge_number, response.url, title, description_text, remote_content⟩)

/-- A problem-page tree in the shape parse_contents expects: a root holding
`div#content` with an `h2` title and a `div.problem_content` description. -/
def pageSoup (title : String) (descChildren : List Node) : Node :=
  tagE "html"
    [.elem ⟨lit "div", none, some (lit "content"), none, none⟩ (nodes
      [tagE "h2" [textE title],
       .elem ⟨lit "div", some [lit "problem_content"], none, none, none⟩ (nodes descChildren)])]

example :
    parse_contents 1 ⟨true, lit "https://projecteuler.net/problem=1", pageSoup "Multiples of 3 or 5"
      [tagE "p" [textE "Find X below 1000."]]⟩ true =
    .ok (some ⟨1, lit "https://projecteuler.net/problem=1", lit "Multiples of 3 or 5",
      lit "Find X below 1000.", none⟩) := by decide

example :
    sanitise_tag_text (tagE "div" [tagE "p" [textE "a"], textE "\n", tagE "p" [textE "b"]]) false =
    lit "a\n\nb" := by decide

/-!  ### Helper predicates and lemmas for the claims.  -/

mutual
/-- Is there a `span`, `i` or `b` element in this subtree (the tags listed in
convert_text_formatting_to_markdown's find_all), the root included? -/
def hasFmtTagN : Node → Bool
  | .text _ => false
  | .elem d cs => (d.name = lit "span" || d.name = lit "i" || d.name = lit "b") || hasFmtTagL cs
/-- `hasFmtTagN` over sibling subtrees. -/
def hasFmtTagL : NodeList → Bool
  | .nil => false
  | .cons n t => hasFmtTagN n || hasFmtTagL t
end

mutual
theorem cfmt_noFmt_node (n : Node) (h : hasFmtTagN n = false) :
    cfmtNode n = .ok n := by
  match n with
  | .text s => rw [cfmtNode]
  | .elem d cs =>
    rw [hasFmtTagN] at h
    simp only [Bool.or_eq_false_iff] at h
    obtain ⟨h1, h2⟩ := h
    rw [cfmtNode]
    rw [cfmt_noFmt_list cs h2]
    simp [h1.1.1, h1.1.2, h1.2]
theorem cfmt_noFmt_list (l : NodeList) (h : hasFmtTagL l = false) :
    cfmtList l = .ok l := by
  match l with
  | .nil => rw [cfmtList]
  | .cons n t =>
    rw [hasFmtTagL] at h
    simp only [Bool.or_eq_false_iff] at h
    obtain ⟨h1, h2⟩ := h
    rw [cfmtList, cfmt_noFmt_node n h1, cfmt_noFmt_list t h2]
end

/-- The Text Assembler part of sanitise_tag_text: child loop, concatenation,
whole-string strip (parser.py lines 614-641). -/
def assembledText (d : Node) : List Char :=
  pyStrip (((sanitiseChildren (childrenOf d)).map Node.textOf).flatten)

/-- The LaTeX brace-escaping step of sanitise_tag_text (line 650):
`\{` → `\\{` then `\}` → `\\}`. -/
def braceEscapeStep (t : List Char) : List Char :=
  replaceAll '\\' (lit "\x7d") (lit "\\\\\x7d") (replaceAll '\\' (lit "\x7b") (lit "\\\\\x7b") t)

/-- The `if github_workarounds:` block of sanitise_tag_text (lines 657-689):
the guarded \operatorname substitution followed by the inline-LaTeX-then-text
substitution; the identity when the flag is off. -/
def githubWorkaroundsStep (flag : Bool) (t : List Char) : List Char :=
  if flag then latexWorkaroundSub (operatornameStep t) else t

/-- The spec's description of one child's contribution to the assembled text
(spec section 4.5): a child whose rendered text is entirely whitespace is
dropped; any other child contributes its text with leading/trailing newlines
trimmed, wrapped in exactly one leading and one trailing newline. -/
def specChildContribution (n : Node) : Option (List Char) :=
  if pyIsSpace n.textOf then none
  else some ('\n' :: stripNewlines n.textOf ++ ['\n'])

theorem toList_nodes (cs : List Node) : (nodes cs).toList = cs := by
  induction cs with
  | nil => rfl
  | cons n t ih => rw [nodes, NodeList.toList, ih]

theorem tagFrom_map_snd (cs : List Node) :
    ∀ k, (tagFrom k cs).map (fun p => p.2) = cs := by
  induction cs with
  | nil => intro k; rfl
  | cons c t ih => intro k; rw [tagFrom, List.map_cons, ih]

theorem replaceById_append (P : List (Nat × Node)) (k : Nat) (c r : Node)
    (R : List (Nat × Node)) (h : ∀ p ∈ P, p.1 ≠ k) :
    replaceById (P ++ (k, c) :: R) k r = P ++ (k, r) :: R := by
  induction P with
  | nil => simp [replaceById]
  | cons e t ih =>
    have he : e.1 ≠ k := h e (by simp)
    rw [List.cons_append, replaceById, if_neg he, List.cons_append,
      ih (fun p hp => h p (by simp [hp]))]

theorem sanitiseLoop_no_ws (cs : List Node) :
    ∀ (k : Nat) (P : List (Nat × Node)),
      (∀ c ∈ cs, pyIsSpace c.textOf = false) →
      (∀ p ∈ P, p.1 < k) →
      sanitiseLoop (tagFrom k cs) (P ++ tagFrom k cs) =
        P ++ tagFrom k
          (cs.map (fun c => Node.text ('\n' :: stripNewlines c.textOf ++ ['\n']))) := by
  induction cs with
  | nil => intro k P _ _; rw [tagFrom, sanitiseLoop, List.map_nil, tagFrom]
  | cons c t ih =>
    intro k P hws hP
    have hc : pyIsSpace c.textOf = false := hws c (by simp)
    rw [tagFrom, sanitiseLoop, if_neg (by simp [hc])]
    rw [replaceById_append P k c _ _ (fun p hp => Nat.ne_of_lt (hP p hp))]
    have hrw : P ++ (k, Node.text ('\n' :: stripNewlines c.textOf ++ ['\n'])) :: tagFrom (k + 1) t =
        (P ++ [(k, Node.text ('\n' :: stripNewlines c.textOf ++ ['\n']))]) ++ tagFrom (k + 1) t := by
      simp
    rw [hrw, ih (k + 1) _ (fun x hx => hws x (by simp [hx])) ?hlt]
    case hlt =>
      intro p hp
      rcases List.mem_append.mp hp with hp1 | hp2
      · exact Nat.lt_succ_of_lt (hP p hp1)
      · simp at hp2; subst hp2; exact Nat.lt_succ_self k
    rw [List.map_cons, tagFrom]
    simp

/-- When no child's rendered text is entirely whitespace, the child loop
performs no removal: every child is replaced in place by its wrapped
text. -/
theorem sanitiseChildren_no_ws (cs : List Node)
    (h : ∀ c ∈ cs, pyIsSpace c.textOf = false) :
    sanitiseChildren (nodes cs) =
      cs.map (fun c => Node.text ('\n' :: stripNewlines c.textOf ++ ['\n'])) := by
  rw [sanitiseChildren, toList_nodes]
  have h0 := sanitiseLoop_no_ws cs 0 [] h (by simp)
  rw [List.nil_append] at h0
  rw [h0, List.nil_append, tagFrom_map_snd]

/-!  ### Claim theorems.  -/

/-- C1: parse_contents runs no Inline Formatting Converter pass at all — it
calls only convert_urls_to_markdown and then sanitise_tag_text — so a
description holding `<b>NOTE:</b> ...` (as on the Longest Collatz Sequence
page, which tests/test_known_challenges.py expects to yield `**NOTE:** ...`)
is flattened to plain text with no `**` anywhere in the Markdown body. -/
theorem C1_formatting_pass_never_invoked :
    parse_contents 14 ⟨true, lit "https://projecteuler.net/problem=14",
      pageSoup "Longest Collatz Sequence"
        [tagE "p" [tagE "b" [textE "NOTE:"],
          textE " Once the chain starts the terms are allowed to go above one million."]]⟩ true =
      .ok (some ⟨14, lit "https://projecteuler.net/problem=14", lit "Longest Collatz Sequence",
        lit "NOTE: Once the chain starts the terms are allowed to go above one million.", none⟩)
    ∧ containsSub (lit "**")
        (lit "NOTE: Once the chain starts the terms are allowed to go above one million.") = false := by
  constructor
  · decide
  · decide

/-- C2 counterexample: the post-processor performs no non-breaking-space
normalization — a description whose text contains U+00A0 comes out of
sanitise_tag_text with the U+00A0 intact, not replaced by an ordinary
space. -/
theorem C2_counterexample_nbsp_kept :
    sanitise_tag_text (tagE "div" [tagE "p" [textE "a b"]]) true = lit "a b"
    ∧ lit "a b" ≠ lit "a b" := by
  constructor
  · decide
  · decide

/-- C2 amended: sanitise_tag_text applies no non-breaking-space
normalization; the first transform applied to the assembled text is the
LaTeX brace escaping, then the multi-line LaTeX wrapping, then the
conditional renderer workarounds, and a non-breaking space embedded in the
description text is passed through to the result unchanged. -/
theorem C2_pipeline_order_no_nbsp_step :
    (∀ (d : Node) (flag : Bool),
      sanitise_tag_text d flag =
        githubWorkaroundsStep flag (multilineLatexSub (braceEscapeStep (assembledText d))))
    ∧ (lit "a b").contains ' ' = true
    ∧ sanitise_tag_text (tagE "div" [tagE "p" [textE "a b"]]) false = lit "a b" := by
  refine ⟨fun d flag => rfl, by decide, by decide⟩

/-- C6 counterexample: the child loop's whitespace removal goes through
`list.remove`, which takes out the FIRST element equal to the child by
value — possibly an earlier child's replacement string rather than the
whitespace child itself.  For children
`<p></p>, <p>c1</p>, "\n\n", <p>c2</p>` the empty paragraph is first
replaced by the string `"\n\n"`; when the whitespace child `"\n\n"` is then
removed, `remove` deletes that replacement instead, the original whitespace
survives, and the assembled text is `c1\n\n\n\nc2` — not the `c1\n\nc2` the
claim's drop-each-whitespace-child reading predicts. -/
theorem C6_counterexample_remove_by_equality :
    assembledText (tagE "div"
        [tagE "p" [], tagE "p" [textE "c1"], textE "\n\n", tagE "p" [textE "c2"]]) =
      lit "c1\n\n\n\nc2"
    ∧ pyStrip ((([tagE "p" [], tagE "p" [textE "c1"], textE "\n\n",
          tagE "p" [textE "c2"]]).filterMap specChildContribution).flatten) =
        lit "c1\n\nc2"
    ∧ lit "c1\n\n\n\nc2" ≠ lit "c1\n\nc2" := by
  refine ⟨by decide, by decide, by decide⟩

/-- C6 amended: each non-whitespace child is replaced in place by its text
with leading/trailing newlines trimmed and one newline added on each side;
each entirely-whitespace child (Python isspace: non-empty, all whitespace)
triggers removal of the first element equal to it by value, which may be an
earlier replacement string rather than the child itself, so equal whitespace
can survive the loop.  When no child's rendered text is entirely whitespace,
the assembled text is exactly the stripped concatenation of the wrapped
child texts; and a description containing only the sentence
`Find X below 1000.` yields exactly that sentence as Markdown body with no
remote content collected. -/
theorem C6_text_assembler :
    (∀ (dd : ElemData) (cs : List Node),
      (∀ c ∈ cs, pyIsSpace c.textOf = false) →
      assembledText (.elem dd (nodes cs)) =
        pyStrip ((cs.map (fun n => '\n' :: stripNewlines n.textOf ++ ['\n'])).flatten))
    ∧ (∀ flag, sanitise_tag_text (tagE "div" [textE "Find X below 1000."]) flag =
        lit "Find X below 1000.")
    ∧ convert_urls_to_markdown (tagE "div" [textE "Find X below 1000."]) =
        .ok (tagE "div" [textE "Find X below 1000."], none) := by
  refine ⟨?_, by decide, by decide⟩
  intro dd cs h
  rw [assembledText, childrenOf, sanitiseChildren_no_ws cs h, List.map_map]
  rfl

/-- C6 witness: the amended assembly at three concrete non-whitespace
children. -/
theorem C6_text_assembler_witness :
    assembledText (.elem ⟨lit "div", none, none, none, none⟩
        (nodes [tagE "p" [textE "c1"], textE " x ", tagE "p" [textE "c2"]])) =
      pyStrip ((([tagE "p" [textE "c1"], textE " x ", tagE "p" [textE "c2"]]).map
        (fun n => '\n' :: stripNewlines n.textOf ++ ['\n'])).flatten) :=
  C6_text_assembler.1 ⟨lit "div", none, none, none, none⟩
    [tagE "p" [textE "c1"], textE " x ", tagE "p" [textE "c2"]] (by decide)

/-- C7 counterexample: a `<strong>` element is not touched by
convert_text_formatting_to_markdown — find_all lists only `span`, `i` and
`b` — so the element survives unchanged instead of becoming `**word**`. -/
theorem C7_counterexample_strong_untouched :
    convert_text_formatting_to_markdown (tagE "div" [tagE "strong" [textE "word"]]) =
      .ok (tagE "div" [tagE "strong" [textE "word"]])
    ∧ tagE "strong" [textE "word"] ≠ textE "**word**" := by
  constructor
  · decide
  · decide

/-- C7 amended: the converter's walk (find_all over `span`, `i`, `b`)
replaces a `<b>` element by `**text**` and an `<i>` element by `*text*` in
place whenever walking the element's descendants raises no error (they are
walked detached, for side effects only — in particular nested `<b>`/`<i>`
are replaced invisibly inside the detached subtree, so `<b><i>x</i></b>`
yields `**x**`); `<strong>` and `<em>` elements are never visited by the
walk, although get_markdown_from_formatted_tag does map them to `**text**` /
`*text*` when it is reached through another path; and `<b>word</b>` becomes
`**word**`. -/
theorem C7_b_i_replaced_strong_em_not_walked :
    (∀ (classes : Option (List (List Char))) (idA href src : Option (List Char))
        (cs cs' : NodeList),
      cfmtList cs = .ok cs' →
        cfmtNode (.elem ⟨lit "b", classes, idA, href, src⟩ cs) =
          .ok (.text (lit "**" ++ cs.textOf ++ lit "**")))
    ∧ (∀ (classes : Option (List (List Char))) (idA href src : Option (List Char))
        (cs cs' : NodeList),
      cfmtList cs = .ok cs' →
        cfmtNode (.elem ⟨lit "i", classes, idA, href, src⟩ cs) =
          .ok (.text ('*' :: cs.textOf ++ ['*'])))
    ∧ (∀ (dd : ElemData) (cs : NodeList), dd.name = lit "strong" →
        get_markdown_from_formatted_tag (.elem dd cs) =
          .ok (some (lit "**" ++ (Node.elem dd cs).textOf ++ lit "**")))
    ∧ (∀ (dd : ElemData) (cs : NodeList), dd.name = lit "em" →
        get_markdown_from_formatted_tag (.elem dd cs) =
          .ok (some ('*' :: (Node.elem dd cs).textOf ++ ['*'])))
    ∧ convert_text_formatting_to_markdown (tagE "div" [tagE "b" [tagE "i" [textE "x"]]]) =
        .ok (tagE "div" [textE "**x**"])
    ∧ convert_text_formatting_to_markdown (tagE "div" [tagE "b" [textE "word"]]) =
        .ok (tagE "div" [textE "**word**"]) := by
  refine ⟨?_, ?_, ?_, ?_, by decide, by decide⟩
  · intro classes idA href src cs cs' h
    rw [cfmtNode]
    simp +decide [get_markdown_from_formatted_tag, Node.textOf, h]
  · intro classes idA href src cs cs' h
    rw [cfmtNode]
    simp +decide [get_markdown_from_formatted_tag, Node.textOf, h]
  · intro dd cs h
    rw [get_markdown_from_formatted_tag, h]
    simp +decide [Node.textOf]
  · intro dd cs h
    rw [get_markdown_from_formatted_tag, h]
    simp +decide [Node.textOf]

/-- C7 witness: the amended mapping applied to a concrete nested
`<b><i>x</i></b>`. -/
theorem C7_b_i_replaced_strong_em_not_walked_witness :
    cfmtNode (.elem ⟨lit "b", none, none, none, none⟩ (nodes [tagE "i" [textE "x"]])) =
      .ok (.text (lit "**x**")) := by
  have h := C7_b_i_replaced_strong_em_not_walked.1 none none none none
    (nodes [tagE "i" [textE "x"]]) (nodes [textE "*x*"]) (by decide)
  rw [h]; decide

/-- C10 counterexample: a `<span>` with no class attribute is not left
alone — get_markdown_from_formatted_tag indexes `tag.get("class")[0]` where
`get` returned None, so the Inline Formatting Converter raises TypeError. -/
theorem C10_counterexample_classless_span :
    convert_text_formatting_to_markdown (tagE "div" [tagE "span" [textE "P"]]) =
      .error .typeError := by decide

/-- C10 amended: a `<span>` whose (present, non-empty) class list does not
start with one of the 16 basic CSS colour keywords is itself left in the
tree, untouched and without error, the walk merely continuing into its
children; in particular it is returned entirely unchanged when its subtree
holds no further `span`/`i`/`b` elements.  A span with no class attribute
raises TypeError instead, and one with an empty class list IndexError. -/
theorem C10_unrecognised_span_left_alone :
    (∀ (c : List Char) (cr : List (List Char)) (idA href src : Option (List Char))
        (cs : NodeList),
      BASIC_HTML_COLOURS.contains c = false →
        cfmtNode (.elem ⟨lit "span", some (c :: cr), idA, href, src⟩ cs) =
          (match cfmtList cs with
           | .error e => .error e
           | .ok cs' => .ok (.elem ⟨lit "span", some (c :: cr), idA, href, src⟩ cs')))
    ∧ (∀ (c : List Char) (cr : List (List Char)) (idA href src : Option (List Char))
        (cs : NodeList),
      BASIC_HTML_COLOURS.contains c = false → hasFmtTagL cs = false →
        cfmtNode (.elem ⟨lit "span", some (c :: cr), idA, href, src⟩ cs) =
          .ok (.elem ⟨lit "span", some (c :: cr), idA, href, src⟩ cs)) := by
  have p1 : ∀ (c : List Char) (cr : List (List Char)) (idA href src : Option (List Char))
      (cs : NodeList),
      BASIC_HTML_COLOURS.contains c = false →
        cfmtNode (.elem ⟨lit "span", some (c :: cr), idA, href, src⟩ cs) =
          (match cfmtList cs with
           | .error e => .error e
           | .ok cs' => .ok (.elem ⟨lit "span", some (c :: cr), idA, href, src⟩ cs')) := by
    intro c cr idA href src cs h
    have h' : c ∉ BASIC_HTML_COLOURS := by simpa using h
    rw [cfmtNode]
    simp +decide [get_markdown_from_formatted_tag, h']
  refine ⟨p1, ?_⟩
  intro c cr idA href src cs h h2
  rw [p1 c cr idA href src cs h, cfmt_noFmt_list cs h2]

/-- C10 witness: a concrete tooltip-anchor-style span (class
`tooltiptext`, not a colour) with a text child is returned unchanged. -/
theorem C10_unrecognised_span_left_alone_witness :
    cfmtNode (.elem ⟨lit "span", some [lit "tooltiptext"], none, none, none⟩
        (nodes [textE "P"])) =
      .ok (.elem ⟨lit "span", some [lit "tooltiptext"], none, none, none⟩
        (nodes [textE "P"])) :=
  C10_unrecognised_span_left_alone.2 (lit "tooltiptext") [] none none none
    (nodes [textE "P"]) (by decide) (by decide)

theorem isPrefixOf_append_self (p x : List Char) : p.isPrefixOf (p ++ x) = true := by
  induction p with
  | nil => simp [List.isPrefixOf]
  | cons c t ih => simp [List.isPrefixOf, ih]

theorem takeWhile_append_of (p : Char → Bool) (ds rest : List Char)
    (h1 : ∀ c ∈ ds, p c = true) (h2 : ∀ c, rest.head? = some c → p c = false) :
    (ds ++ rest).takeWhile p = ds := by
  induction ds with
  | nil =>
    cases rest with
    | nil => rfl
    | cons r t => simp [List.takeWhile_cons, h2 r rfl]
  | cons c t ih =>
    have hc := h1 c (by simp)
    simp [List.takeWhile_cons, hc, ih (fun x hx => h1 x (by simp [hx]))]

/-- C8: a URL of the form `problem=<digits>...` is always classified as a
challenge reference — the challenge pattern is tested first, so any
resource-like or about-like decoy later in the string is irrelevant — the
number group captures the maximal leading digit run, and the `a` element is
replaced in place by a Markdown link to the absolute challenge-page URL with
the original link text, leaving the remote-content manifest untouched. -/
theorem C8_problem_url_is_challenge_ref :
    ∀ (ds rest tagText : List Char) (remote : Dict) (is_image : Bool),
      ds ≠ [] → (∀ c ∈ ds, c.isDigit = true) →
      (∀ c ∈ rest.take 1, c.isDigit = false) →
      CHALLENGE_URL_search (lit "problem=" ++ ds ++ rest) = some ds
      ∧ replace_tag_with_markdown_url tagText (some (lit "problem=" ++ ds ++ rest))
          remote is_image =
        .ok ((if is_image then
          '!' :: ('[' :: tagText ++ lit "](" ++ CHALLENGE_URL_BASE ++ ds ++ lit ")")
          else '[' :: tagText ++ lit "](" ++ CHALLENGE_URL_BASE ++ ds ++ lit ")"), remote)
      ∧ ∀ (d : Dict),
          walkTags (.elem ⟨lit "a", none, none,
              some (lit "problem=" ++ ds ++ rest), none⟩ (.cons (.text tagText) .nil)) d =
            .ok (.text ('[' :: tagText ++ lit "](" ++ CHALLENGE_URL_BASE ++ ds ++ lit ")"), d) := by
  intro ds rest tagText remote is_image hne hds hrest0
  have hrest : ∀ c, rest.head? = some c → c.isDigit = false := by
    intro c hc
    cases rest with
    | nil => simp at hc
    | cons r t =>
      have hcr : c = r := by symm; simpa using hc
      subst hcr
      exact hrest0 c (by simp)
  have hsearch : CHALLENGE_URL_search (lit "problem=" ++ ds ++ rest) = some ds := by
    rw [CHALLENGE_URL_search]
    rw [if_pos ?hpre]
    case hpre => rw [List.append_assoc]; exact isPrefixOf_append_self _ _
    rw [List.append_assoc,
      show (8 : Nat) = (lit "problem=").length from rfl, List.drop_left,
      takeWhile_append_of Char.isDigit ds rest hds hrest]
    simp [hne]
  have hrep : ∀ (rem : Dict) (im : Bool),
      replace_tag_with_markdown_url tagText (some (lit "problem=" ++ ds ++ rest)) rem im =
        .ok ((if im then
          '!' :: ('[' :: tagText ++ lit "](" ++ CHALLENGE_URL_BASE ++ ds ++ lit ")")
          else '[' :: tagText ++ lit "](" ++ CHALLENGE_URL_BASE ++ ds ++ lit ")"), rem) := by
    intro rem im
    rw [replace_tag_with_markdown_url]
    simp only [hsearch]
  refine ⟨hsearch, hrep remote is_image, ?_⟩
  intro d
  rw [walkTags]
  simp +decide [NodeList.textOf, Node.textOf, walkTagsList, walkTags]
  have hrep' := hrep d false
  rw [List.append_assoc] at hrep'
  rw [hrep']
  simp

/-- C8 witness: a concrete `problem=` URL, with an about-like and a
resource-like decoy embedded later in the string, is classified as a
challenge reference. -/
theorem C8_problem_url_is_challenge_ref_witness :
    CHALLENGE_URL_search
      (lit "problem=" ++ lit "123" ++ lit "about=decoy/resources/p001_x.png") =
      some (lit "123") :=
  (C8_problem_url_is_challenge_ref (lit "123") (lit "about=decoy/resources/p001_x.png")
    (lit "text") [] false (by decide) (by decide) (by decide)).1

theorem replace_tag_unknown (tagText u : List Char) (remote : Dict) (im : Bool)
    (h1 : CHALLENGE_URL_search u = none) (h2 : RESOURCE_URL_search u = none)
    (h3 : ABOUT_URL_search u = none) :
    replace_tag_with_markdown_url tagText (some u) remote im =
      .error (.notImplementedError u) := by
  rw [replace_tag_with_markdown_url]
  simp only [h1, h2, h3]

/-- Does this URL attribute value match none of the three classification
regexes? -/
def unknownUrl : Option (List Char) → Bool
  | none => false
  | some u =>
    (CHALLENGE_URL_search u).isNone && (RESOURCE_URL_search u).isNone &&
      (ABOUT_URL_search u).isNone

mutual
/-- Does the subtree contain an `a`/`img` element (the root included) whose
URL matches none of the three classification patterns? -/
def hasUnknownTagN : Node → Bool
  | .text _ => false
  | .elem d cs =>
    ((d.name = lit "a" || d.name = lit "img") &&
      unknownUrl (if d.name = lit "a" then d.href else d.src)) || hasUnknownTagL cs
/-- `hasUnknownTagN` over sibling subtrees. -/
def hasUnknownTagL : NodeList → Bool
  | .nil => false
  | .cons n t => hasUnknownTagN n || hasUnknownTagL t
end

mutual
theorem walkTags_unknown_err (n : Node) (h : hasUnknownTagN n = true) :
    ∀ (d : Dict) r, walkTags n d ≠ .ok r := by
  match n with
  | .text s => rw [hasUnknownTagN] at h; simp at h
  | .elem dat cs =>
    intro d r hok
    rw [walkTags] at hok
    rw [hasUnknownTagN, Bool.or_eq_true] at h
    cases h with
    | inl hself =>
      rw [Bool.and_eq_true] at hself
      obtain ⟨hname, hurl⟩ := hself
      rw [if_pos hname] at hok
      cases hu : (if dat.name = lit "a" then dat.href else dat.src) with
      | none => rw [hu] at hurl; simp [unknownUrl] at hurl
      | some u =>
        rw [hu] at hurl hok
        simp only [] at hok
        simp only [unknownUrl, Bool.and_eq_true, Option.isNone_iff_eq_none] at hurl
        obtain ⟨⟨h1, h2⟩, h3⟩ := hurl
        rw [replace_tag_unknown (NodeList.textOf cs) u d (dat.name = lit "img") h1 h2 h3] at hok
        simp at hok
    | inr hcs =>
      by_cases hname : (dat.name = lit "a" || dat.name = lit "img") = true
      · rw [if_pos hname] at hok
        simp only [] at hok
        cases hrt : replace_tag_with_markdown_url (NodeList.textOf cs)
            (if dat.name = lit "a" then dat.href else dat.src) d (dat.name = lit "img") with
        | error e => rw [hrt] at hok; simp at hok
        | ok p =>
          rw [hrt] at hok
          obtain ⟨md, d'⟩ := p
          simp only [] at hok
          cases hwl : walkTagsList cs d' with
          | error e => rw [hwl] at hok; simp at hok
          | ok q => exact walkTagsList_unknown_err cs hcs d' q hwl
      · rw [if_neg hname] at hok
        cases hwl : walkTagsList cs d with
        | error e => rw [hwl] at hok; simp at hok
        | ok q => exact walkTagsList_unknown_err cs hcs d q hwl
theorem walkTagsList_unknown_err (l : NodeList) (h : hasUnknownTagL l = true) :
    ∀ (d : Dict) r, walkTagsList l d ≠ .ok r := by
  match l with
  | .nil => rw [hasUnknownTagL] at h; simp at h
  | .cons n t =>
    intro d r hok
    rw [walkTagsList] at hok
    rw [hasUnknownTagL, Bool.or_eq_true] at h
    cases hn : walkTags n d with
    | error e => rw [hn] at hok; simp at hok
    | ok p =>
      obtain ⟨n', d'⟩ := p
      cases h with
      | inl h1 => exact walkTags_unknown_err n h1 d (n', d') hn
      | inr h2 =>
        rw [hn] at hok
        simp only [] at hok
        cases hm : walkTagsList t d' with
        | error e => rw [hm] at hok; simp at hok
        | ok q => exact walkTagsList_unknown_err t h2 d' q hm
end

/-- C5: a link or image URL that matches none of the three classification
patterns makes replace_tag_with_markdown_url raise NotImplementedError naming
that URL (there is no fallback link type), and a document whose description
root holds such a tag among its descendants never yields a conversion result
from convert_urls_to_markdown. -/
theorem C5_unknown_link_type_fatal :
    (∀ (u tagText : List Char) (remote : Dict) (is_image : Bool),
      CHALLENGE_URL_search u = none → RESOURCE_URL_search u = none →
      ABOUT_URL_search u = none →
      replace_tag_with_markdown_url tagText (some u) remote is_image =
        .error (.notImplementedError u))
    ∧ (∀ (dd : ElemData) (cs : NodeList), hasUnknownTagL cs = true →
        ∀ r, convert_urls_to_markdown (.elem dd cs) ≠ .ok r) := by
  constructor
  · intro u tagText remote im h1 h2 h3
    exact replace_tag_unknown tagText u remote im h1 h2 h3
  · intro dd cs h r hok
    rw [convert_urls_to_markdown] at hok
    cases hw : walkTagsList cs [] with
    | error e => rw [hw] at hok; simp at hok
    | ok p => exact walkTagsList_unknown_err cs h [] p hw

/-- C5 witness: a `mailto:` URL matches no classification pattern and raises
NotImplementedError carrying the URL. -/
theorem C5_unknown_link_type_fatal_witness :
    replace_tag_with_markdown_url (lit "link") (some (lit "mailto:someone")) [] false =
      .error (.notImplementedError (lit "mailto:someone")) :=
  C5_unknown_link_type_fatal.1 (lit "mailto:someone") (lit "link") [] false
    (by decide) (by decide) (by decide)

theorem replace_tag_keys_nodup (tagText : List Char) (url : Option (List Char)) (remote : Dict)
    (im : Bool) (hd : remote.keys.Nodup) :
    ∀ md d', replace_tag_with_markdown_url tagText url remote im = .ok (md, d') →
      d'.keys.Nodup := by
  intro md d' h
  cases url with
  | none => rw [replace_tag_with_markdown_url] at h; simp at h
  | some u =>
    rw [replace_tag_with_markdown_url] at h
    simp only [] at h
    cases hc : CHALLENGE_URL_search u with
    | some num =>
      rw [hc] at h
      simp only [Except.ok.injEq, Prod.mk.injEq] at h
      obtain ⟨-, h2⟩ := h
      subst h2; exact hd
    | none =>
      rw [hc] at h
      simp only [] at h
      cases hr : RESOURCE_URL_search u with
      | some raw =>
        rw [hr] at h
        simp only [] at h
        cases hs : sanitise_file_name raw with
        | error e => rw [hs] at h; simp at h
        | ok file_name =>
          rw [hs] at h
          simp only [] at h
          split at h
          · simp at h
          · rename_i hck
            simp only [Except.ok.injEq, Prod.mk.injEq] at h
            obtain ⟨-, h2⟩ := h
            subst h2
            have hk : file_name ∉ remote.keys := by
              simp [Dict.containsKey] at hck
              simpa using hck
            simp only [Dict.insert, Dict.keys, List.map_append, List.map_cons, List.map_nil]
            rw [List.nodup_append]
            exact ⟨hd, List.nodup_singleton _, by simpa [Dict.keys] using hk⟩
      | none =>
        rw [hr] at h
        simp only [] at h
        cases ha : ABOUT_URL_search u with
        | some w =>
          rw [ha] at h
          simp only [Except.ok.injEq, Prod.mk.injEq] at h
          obtain ⟨-, h2⟩ := h
          subst h2; exact hd
        | none => rw [ha] at h; simp at h

mutual
theorem walkTags_keys_nodup (n : Node) :
    ∀ (d : Dict), d.keys.Nodup →
      ∀ n' d', walkTags n d = .ok (n', d') → d'.keys.Nodup := by
  match n with
  | .text s =>
    intro d hd n' d' h
    rw [walkTags] at h
    simp only [Except.ok.injEq, Prod.mk.injEq] at h
    obtain ⟨-, h2⟩ := h
    subst h2; exact hd
  | .elem dat cs =>
    intro d hd n' d' h
    rw [walkTags] at h
    split at h
    · simp only [] at h
      cases hrt : replace_tag_with_markdown_url (NodeList.textOf cs)
          (if dat.name = lit "a" then dat.href else dat.src) d (dat.name = lit "img") with
      | error e => rw [hrt] at h; simp at h
      | ok p =>
        obtain ⟨md, d1⟩ := p
        rw [hrt] at h
        simp only [] at h
        have hd1 := replace_tag_keys_nodup (NodeList.textOf cs)
          (if dat.name = lit "a" then dat.href else dat.src) d (dat.name = lit "img") hd
          md d1 hrt
        cases hwl : walkTagsList cs d1 with
        | error e => rw [hwl] at h; simp at h
        | ok q =>
          obtain ⟨cs', d2⟩ := q
          rw [hwl] at h
          simp only [Except.ok.injEq, Prod.mk.injEq] at h
          obtain ⟨-, h2⟩ := h
          subst h2
          exact walkTagsList_keys_nodup cs d1 hd1 cs' d2 hwl
    · cases hwl : walkTagsList cs d with
      | error e => rw [hwl] at h; simp at h
      | ok q =>
        obtain ⟨cs', d2⟩ := q
        rw [hwl] at h
        simp only [Except.ok.injEq, Prod.mk.injEq] at h
        obtain ⟨-, h2⟩ := h
        subst h2
        exact walkTagsList_keys_nodup cs d hd cs' d2 hwl
theorem walkTagsList_keys_nodup (l : NodeList) :
    ∀ (d : Dict), d.keys.Nodup →
      ∀ l' d', walkTagsList l d = .ok (l', d') → d'.keys.Nodup := by
  match l with
  | .nil =>
    intro d hd l' d' h
    rw [walkTagsList] at h
    simp only [Except.ok.injEq, Prod.mk.injEq] at h
    obtain ⟨-, h2⟩ := h
    subst h2; exact hd
  | .cons n t =>
    intro d hd l' d' h
    rw [walkTagsList] at h
    cases hn : walkTags n d with
    | error e => rw [hn] at h; simp at h
    | ok p =>
      obtain ⟨n', d1⟩ := p
      rw [hn] at h
      simp only [] at h
      have hd1 := walkTags_keys_nodup n d hd n' d1 hn
      cases hm : walkTagsList t d1 with
      | error e => rw [hm] at h; simp at h
      | ok q =>
        obtain ⟨t', d2⟩ := q
        rw [hm] at h
        simp only [Except.ok.injEq, Prod.mk.injEq] at h
        obtain ⟨-, h2⟩ := h
        subst h2
        exact walkTagsList_keys_nodup t d1 hd1 t' d2 hm
end

/-- C4: when two links in one document classify as resources whose sanitised
filenames collide, convert_urls_to_markdown fails with KeyError naming the
colliding filename (no manifest is returned — the result is an error, not a
partial dictionary); and every manifest an ok result does return has
pairwise-distinct filename keys. -/
theorem C4_duplicate_resource_error :
    (∀ (u1 u2 t1 t2 fn1 fn2 nm : List Char),
      u1 ≠ u2 →
      CHALLENGE_URL_search u1 = none → RESOURCE_URL_search u1 = some fn1 →
      sanitise_file_name fn1 = .ok nm →
      CHALLENGE_URL_search u2 = none → RESOURCE_URL_search u2 = some fn2 →
      sanitise_file_name fn2 = .ok nm →
      convert_urls_to_markdown
        (.elem ⟨lit "div", none, none, none, none⟩
          (.cons (.elem ⟨lit "a", none, none, some u1, none⟩ (.cons (.text t1) .nil))
            (.cons (.elem ⟨lit "a", none, none, some u2, none⟩ (.cons (.text t2) .nil)) .nil))) =
        .error (.keyError nm))
    ∧ (∀ (content n' : Node) (m : Dict),
        convert_urls_to_markdown content = .ok (n', some m) → m.keys.Nodup) := by
  constructor
  · intro u1 u2 t1 t2 fn1 fn2 nm hne h1c h1r h1s h2c h2r h2s
    rw [convert_urls_to_markdown]
    simp +decide [walkTagsList, walkTags, NodeList.textOf, Node.textOf]
    rw [replace_tag_with_markdown_url]
    simp only [h1c, h1r, h1s]
    simp [Dict.containsKey, Dict.keys, Dict.insert]
    rw [replace_tag_with_markdown_url]
    simp only [h2c, h2r, h2s]
    simp [Dict.containsKey, Dict.keys, Dict.insert]
  · intro content n' m h
    match content, h with
    | .text s, h =>
      rw [convert_urls_to_markdown] at h
      simp at h
    | .elem dat cs, h =>
      rw [convert_urls_to_markdown] at h
      cases hw : walkTagsList cs [] with
      | error e => rw [hw] at h; simp at h
      | ok p =>
        obtain ⟨cs', dd⟩ := p
        rw [hw] at h
        simp only [] at h
        have hnd := walkTagsList_keys_nodup cs [] (by simp [Dict.keys]) cs' dd hw
        split at h
        · simp at h
        · simp only [Except.ok.injEq, Prod.mk.injEq, Option.some.injEq] at h
          obtain ⟨-, h2⟩ := h
          subst h2; exact hnd

/-- C4 witness: two distinct resource URLs that both sanitise to `data.txt`
abort the conversion with `KeyError("data.txt")`. -/
theorem C4_duplicate_resource_error_witness :
    convert_urls_to_markdown
      (.elem ⟨lit "div", none, none, none, none⟩
        (.cons (.elem ⟨lit "a", none, none, some (lit "resources/p001_data.txt"), none⟩
            (.cons (.text (lit "x")) .nil))
          (.cons (.elem ⟨lit "a", none, none, some (lit "images/p002_data.txt"), none⟩
            (.cons (.text (lit "y")) .nil)) .nil))) =
      .error (.keyError (lit "data.txt")) :=
  C4_duplicate_resource_error.1 (lit "resources/p001_data.txt") (lit "images/p002_data.txt")
    (lit "x") (lit "y") (lit "p001_data.txt") (lit "p002_data.txt") (lit "data.txt")
    (by decide) (by decide) (by decide) (by decide) (by decide) (by decide) (by decide)

theorem lazyPlusTo_exact (stop : Char) (b : List Char) :
    ∀ rest, rest ≠ [] → (∀ c ∈ rest, c ≠ stop ∧ c ≠ '\n') →
      lazyPlusTo stop (rest ++ stop :: b) = some (rest, b) := by
  intro rest
  induction rest with
  | nil => intro h _; exact absurd rfl h
  | cons r rt ih =>
    intro _ hc
    have h1 : r ≠ '\n' := (hc r (by simp)).2
    cases rt with
    | nil => simp [lazyPlusTo, h1]
    | cons r2 rt' =>
      have h2 : r2 ≠ stop := (hc r2 (by simp)).1
      simp only [List.cons_append]
      rw [lazyPlusTo]
      rw [List.cons_append] at ih
      simp [h1, h2, ih (by simp) (fun c hcc => hc c (by simp [hcc]))]

theorem opMatch_exact (b : List Char) :
    ∀ name rest, name ≠ [] → (∀ c ∈ name, c ≠ '\x7d' ∧ c ≠ '\n') →
      rest ≠ [] → (∀ c ∈ rest, c ≠ '=' ∧ c ≠ '\n') →
      opMatch (name ++ ('\x7d' :: (rest ++ ('=' :: b)))) = some (name, rest, b) := by
  intro name
  induction name with
  | nil => intro rest h _ _ _; exact absurd rfl h
  | cons n1 nt ih =>
    intro rest _ hname hrne hrest
    have h1 : n1 ≠ '\n' := (hname n1 (by simp)).2
    cases nt with
    | nil =>
      simp only [List.nil_append, List.cons_append]
      rw [opMatch]
      have hl := lazyPlusTo_exact '=' b rest hrne hrest
      simp only [List.cons_append, List.append_assoc] at hl
      simp [h1, hl]
    | cons n2 nt' =>
      have h2 : n2 ≠ '\x7d' := (hname n2 (by simp)).1
      simp only [List.cons_append]
      rw [opMatch]
      have hih := ih rest (by simp) (fun c hcc => hname c (by simp [hcc])) hrne hrest
      simp only [List.cons_append, List.append_assoc] at hih
      simp [h1, h2]
      exact hih

theorem opSubGo_step_match (f : Nat) (l n rest after : List Char)
    (hpre : (lit "\\operatorname\x7b").isPrefixOf l = true)
    (hm : opMatch (l.drop 14) = some (n, rest, after)) :
    opSubGo (f + 1) l =
      lit "\\mathop\x7b\\text\x7b" ++ (n ++ (lit "\x7d\x7d" ++ (rest ++
        ('=' :: opSubGo f after)))) := by
  cases l with
  | nil => simp [List.isPrefixOf] at hpre
  | cons c t =>
    have hm' : opMatch (t.drop 13) = some (n, rest, after) := by simpa using hm
    rw [opSubGo]
    simp [hpre, hm']

theorem opSubGo_step_skip (f : Nat) (c : Char) (t : List Char) (hc : c ≠ '\\') :
    opSubGo (f + 1) (c :: t) = c :: opSubGo f t := by
  have hnp : ¬ (lit "\\operatorname\x7b" <+: (c :: t)) := by
    rw [show lit "\\operatorname\x7b" = '\\' :: lit "operatorname\x7b" from rfl,
      List.cons_prefix_cons]
    rintro ⟨h1, -⟩
    exact hc h1.symm
  have hpre : (lit "\\operatorname\x7b").isPrefixOf (c :: t) = false := by
    rw [← Bool.not_eq_true, List.isPrefixOf_iff_prefix]
    exact hnp
  rw [opSubGo]
  simp [hpre]

theorem opSub_rewrites_occurrence :
    ∀ (a : List Char), '\\' ∉ a →
      ∀ (name rest b : List Char) (f : Nat),
        name ≠ [] → (∀ c ∈ name, c ≠ '\x7d' ∧ c ≠ '\n') →
        rest ≠ [] → (∀ c ∈ rest, c ≠ '=' ∧ c ≠ '\n') →
        (a ++ (lit "\\operatorname\x7b" ++ (name ++ ('\x7d' :: (rest ++ ('=' :: b)))))).length ≤ f →
        opSubGo f (a ++ (lit "\\operatorname\x7b" ++ (name ++ ('\x7d' :: (rest ++ ('=' :: b)))))) =
          a ++ (lit "\\mathop\x7b\\text\x7b" ++ (name ++ (lit "\x7d\x7d" ++ (rest ++
            ('=' :: opSubGo b.length b))))) := by
  intro a
  induction a with
  | nil =>
    intro _ name rest b f hn1 hn2 hr1 hr2 hlen
    simp only [List.nil_append] at hlen ⊢
    cases f with
    | zero => simp [List.length_append] at hlen
    | succ f' =>
      rw [opSubGo_step_match f' _ name rest b (isPrefixOf_append_self _ _) ?hm]
      case hm =>
        rw [show (14 : Nat) = (lit "\\operatorname\x7b").length from rfl, List.drop_left]
        exact opMatch_exact b name rest hn1 hn2 hr1 hr2
      rw [opSubGo_irrel f' b.length b ?h1 le_rfl]
      case h1 =>
        simp [List.length_append] at hlen ⊢
        omega
  | cons x a' ih =>
    intro hx name rest b f hn1 hn2 hr1 hr2 hlen
    have hx1 : x ≠ '\\' := fun h => hx (by simp [h])
    have hx2 : '\\' ∉ a' := fun h => hx (by simp [h])
    cases f with
    | zero => simp [List.length_append] at hlen
    | succ f' =>
      simp only [List.cons_append] at hlen ⊢
      rw [opSubGo_step_skip f' x _ hx1]
      rw [ih hx2 name rest b f' hn1 hn2 hr1 hr2 (by simp at hlen ⊢; omega)]

set_option maxHeartbeats 1600000 in
/-- C9: with the workaround flag enabled, an occurrence of
`\operatorname{<name>}<rest>=` (name brace-free, rest =-free, neither
spanning a newline, occurrence preceded by backslash-free text) is rewritten
by the \operatorname substitution to `\mathop{\text{<name>}}<rest>=`, the
scan continuing on the remainder; with the flag disabled sanitise_tag_text
never applies the workaround substitutions; concretely,
`\operatorname{lcm}(a,b)=` becomes `\mathop{\text{lcm}}(a,b)=` when the flag
is on and is returned unchanged when it is off. -/
theorem C9_operatorname_rewrite :
    (∀ (a name rest b : List Char),
      '\\' ∉ a → name ≠ [] → (∀ c ∈ name, c ≠ '\x7d' ∧ c ≠ '\n') →
      rest ≠ [] → (∀ c ∈ rest, c ≠ '=' ∧ c ≠ '\n') →
      opSub (a ++ (lit "\\operatorname\x7b" ++ (name ++ ('\x7d' :: (rest ++ ('=' :: b)))))) =
        a ++ (lit "\\mathop\x7b\\text\x7b" ++ (name ++ (lit "\x7d\x7d" ++ (rest ++
          ('=' :: opSub b))))))
    ∧ (∀ d : Node, sanitise_tag_text d false =
        multilineLatexSub (braceEscapeStep (assembledText d)))
    ∧ sanitise_tag_text (tagE "div" [textE "\\operatorname\x7blcm\x7d(a,b)="]) true =
        lit "\\mathop\x7b\\text\x7blcm\x7d\x7d(a,b)="
    ∧ sanitise_tag_text (tagE "div" [textE "\\operatorname\x7blcm\x7d(a,b)="]) false =
        lit "\\operatorname\x7blcm\x7d(a,b)=" := by
  refine ⟨?_, fun d => rfl, by decide, by decide⟩
  intro a name rest b ha hn1 hn2 hr1 hr2
  rw [opSub, opSub_rewrites_occurrence a ha name rest b _ hn1 hn2 hr1 hr2 le_rfl]
  rfl

/-- C9 witness: the occurrence lemma applied at `x \operatorname{lcm}(a,b)= y`. -/
theorem C9_operatorname_rewrite_witness :
    opSub (lit "x " ++ (lit "\\operatorname\x7b" ++ (lit "lcm" ++
        ('\x7d' :: (lit "(a,b)" ++ ('=' :: lit " y")))))) =
      lit "x " ++ (lit "\\mathop\x7b\\text\x7b" ++ (lit "lcm" ++ (lit "\x7d\x7d" ++
        (lit "(a,b)" ++ ('=' :: opSub (lit " y")))))) :=
  C9_operatorname_rewrite.1 (lit "x ") (lit "lcm") (lit "(a,b)") (lit " y")
    (by decide) (by decide) (by decide) (by decide) (by decide)

theorem takeWhile_not_nl (l : List Char) (h : '\n' ∉ l) :
    l.takeWhile (fun x => x ≠ '\n') = l := by
  induction l with
  | nil => rfl
  | cons c t ih =>
    have hc : c ≠ '\n' := fun hh => h (by simp [hh])
    simp [List.takeWhile_cons, hc, ih (fun hh => h (by simp [hh]))]
    intro x hx hxx
    subst hxx
    exact h (by simp [hx])

theorem dropWhile_not_nl (l : List Char) (h : '\n' ∉ l) :
    l.dropWhile (fun x => x ≠ '\n') = [] := by
  induction l with
  | nil => rfl
  | cons c t ih =>
    have hc : c ≠ '\n' := fun hh => h (by simp [hh])
    simp [List.dropWhile_cons, hc, ih (fun hh => h (by simp [hh]))]
    intro x hx hxx
    subst hxx
    exact h (by simp [hx])

theorem filenameAll_clean (l : List Char) (hne : l ≠ []) (h : '\n' ∉ l) :
    filenameAll l = some l := by
  cases l with
  | nil => exact absurd rfl hne
  | cons c t =>
    have hc : c ≠ '\n' := fun hh => h (by simp [hh])
    rw [filenameAll]
    simp [hc, takeWhile_not_nl t (fun hh => h (by simp [hh]))]
    intro x hx hxx
    subst hxx
    exact h (by simp [hx])

theorem subpathAux_no_slash (l : List Char) (h : '/' ∉ l) : subpathAux l = none := by
  induction l with
  | nil => rfl
  | cons c t ih =>
    have hc : c ≠ '/' := fun hh => h (by simp [hh])
    rw [subpathAux]
    by_cases hn : c = '\n' <;>
      simp [hn, hc, ih (fun hh => h (by simp [hh]))]

theorem subpathAux_split (ys : List Char) (hne : ys ≠ []) (hnl : '\n' ∉ ys)
    (hns : '/' ∉ ys) :
    ∀ zs, '\n' ∉ zs → subpathAux (zs ++ ('/' :: ys)) = some ys := by
  intro zs
  induction zs with
  | nil =>
    intro _
    rw [List.nil_append, subpathAux]
    simp [subpathAux_no_slash ys hns, filenameAll_clean ys hne hnl]
  | cons z zs' ih =>
    intro hz
    have h1 : z ≠ '\n' := fun hh => hz (by simp [hh])
    rw [List.cons_append, subpathAux]
    simp [h1, ih (fun hh => hz (by simp [hh]))]

theorem filenamePart_split (subpath ys : List Char) (hs1 : subpath ≠ [])
    (hs2 : '\n' ∉ subpath) (hne : ys ≠ []) (hnl : '\n' ∉ ys) (hns : '/' ∉ ys) :
    filenamePart (subpath ++ ('/' :: ys)) = some ys := by
  cases subpath with
  | nil => exact absurd rfl hs1
  | cons s0 sp =>
    have h0 : s0 ≠ '\n' := fun hh => hs2 (by simp [hh])
    rw [List.cons_append, filenamePart]
    simp [h0, subpathAux_split ys hne hnl hns sp (fun hh => hs2 (by simp [hh]))]

theorem isPrefixOf_cons_ne (a b : Char) (as bs : List Char) (h : a ≠ b) :
    (a :: as).isPrefixOf (b :: bs) = false := by
  simp [List.isPrefixOf, h]

theorem RESOURCE_URL_search_form (pfx root subpath ys : List Char)
    (hp : pfx = [] ∨ pfx = lit "project/")
    (hr : root = lit "resources/" ∨ root = lit "images/")
    (hs1 : subpath ≠ []) (hs2 : '\n' ∉ subpath)
    (hne : ys ≠ []) (hnl : '\n' ∉ ys) (hns : '/' ∉ ys) :
    RESOURCE_URL_search (pfx ++ (root ++ (subpath ++ ('/' :: ys)))) = some ys := by
  have hfp := filenamePart_split subpath ys hs1 hs2 hne hnl hns
  have hres : ∀ W : List Char,
      (lit "resources/").isPrefixOf (lit "resources/" ++ W) = true ∧
      (lit "project/").isPrefixOf (lit "resources/" ++ W) = false := by
    intro W
    refine ⟨isPrefixOf_append_self _ _, ?_⟩
    rw [show lit "resources/" ++ W = 'r' :: (lit "esources/" ++ W) from rfl,
      show lit "project/" = 'p' :: lit "roject/" from rfl]
    exact isPrefixOf_cons_ne 'p' 'r' _ _ (by decide)
  have himg : ∀ W : List Char,
      (lit "images/").isPrefixOf (lit "images/" ++ W) = true ∧
      (lit "project/").isPrefixOf (lit "images/" ++ W) = false ∧
      (lit "resources/").isPrefixOf (lit "images/" ++ W) = false := by
    intro W
    refine ⟨isPrefixOf_append_self _ _, ?_, ?_⟩
    · rw [show lit "images/" ++ W = 'i' :: (lit "mages/" ++ W) from rfl,
        show lit "project/" = 'p' :: lit "roject/" from rfl]
      exact isPrefixOf_cons_ne 'p' 'i' _ _ (by decide)
    · rw [show lit "images/" ++ W = 'i' :: (lit "mages/" ++ W) from rfl,
        show lit "resources/" = 'r' :: lit "esources/" from rfl]
      exact isPrefixOf_cons_ne 'r' 'i' _ _ (by decide)
  rcases hp with hp | hp <;> rcases hr with hr | hr <;> subst hp hr
  · rw [List.nil_append, RESOURCE_URL_search]
    simp only [(hres _).1, (hres _).2, Bool.false_eq_true, if_false, if_true]
    rw [show (10 : Nat) = (lit "resources/").length from rfl, List.drop_left]
    exact hfp
  · rw [List.nil_append, RESOURCE_URL_search]
    simp only [(himg _).1, (himg _).2.1, (himg _).2.2, Bool.false_eq_true, if_false, if_true]
    rw [show (7 : Nat) = (lit "images/").length from rfl, List.drop_left]
    exact hfp
  · rw [RESOURCE_URL_search]
    simp only [isPrefixOf_append_self (lit "project/") _, if_true]
    rw [show (8 : Nat) = (lit "project/").length from rfl, List.drop_left]
    simp only [(hres _).1, if_true]
    rw [show (10 : Nat) = (lit "resources/").length from rfl, List.drop_left]
    exact hfp
  · rw [RESOURCE_URL_search]
    simp only [isPrefixOf_append_self (lit "project/") _, if_true]
    rw [show (8 : Nat) = (lit "project/").length from rfl, List.drop_left]
    simp only [(himg _).1, (himg _).2.2, Bool.false_eq_true, if_false, if_true]
    rw [show (7 : Nat) = (lit "images/").length from rfl, List.drop_left]
    exact hfp

theorem tryQueryDollar_false (c : Char) (t : List Char) (h1 : c ≠ '?') (h2 : c ≠ '\n') :
    tryQueryDollar (c :: t) = false := by
  rw [tryQueryDollar]
  simp [dollarAt, h1, h2]

theorem lazyAfterDot_exact (q : List Char) (hq : '\n' ∉ q) :
    ∀ ext, ext ≠ [] → (∀ c ∈ ext, c ≠ '?' ∧ c ≠ '\n') →
      lazyAfterDot (ext ++ ('?' :: q)) = some ext := by
  intro ext
  induction ext with
  | nil => intro h _; exact absurd rfl h
  | cons e et ih =>
    intro _ hc
    have h1 : e ≠ '\n' := (hc e (by simp)).2
    cases et with
    | nil =>
      rw [List.cons_append, List.nil_append, lazyAfterDot]
      have hq1 : tryQueryDollar ('?' :: q) = true := by
        rw [tryQueryDollar]
        simp [dollarAt, dropWhile_not_nl q hq]
        exact Or.inl (fun x hx hxx => hq (hxx ▸ hx))
      simp [h1, hq1]
    | cons e2 et' =>
      have h21 : e2 ≠ '?' := (hc e2 (by simp)).1
      have h22 : e2 ≠ '\n' := (hc e2 (by simp)).2
      rw [List.cons_append, lazyAfterDot]
      have hfalse : tryQueryDollar (e2 :: (et' ++ ('?' :: q))) = false :=
        tryQueryDollar_false e2 _ h21 h22
      have hih := ih (by simp) (fun c hcc => hc c (by simp [hcc]))
      simp only [List.cons_append] at hih
      simp [h1, hfalse, hih]

theorem restSplitAux_no_dot (l : List Char) (h : '.' ∉ l) : restSplitAux l = none := by
  induction l with
  | nil => rfl
  | cons c t ih =>
    have hc : c ≠ '.' := fun hh => h (by simp [hh])
    rw [restSplitAux]
    by_cases hn : c = '\n' <;>
      simp [hn, hc, ih (fun hh => h (by simp [hh]))]

theorem restSplitAux_split (ys ex : List Char) (hld : lazyAfterDot ys = some ex)
    (hnd : '.' ∉ ys) :
    ∀ zs, '\n' ∉ zs → restSplitAux (zs ++ ('.' :: ys)) = some (zs ++ ('.' :: ex)) := by
  intro zs
  induction zs with
  | nil =>
    intro _
    rw [List.nil_append, List.nil_append, restSplitAux]
    simp [restSplitAux_no_dot ys hnd, hld]
  | cons z zs' ih =>
    intro hz
    have h1 : z ≠ '\n' := fun hh => hz (by simp [hh])
    rw [List.cons_append, restSplitAux]
    simp [h1, ih (fun hh => hz (by simp [hh]))]

theorem restGreedyDot_exact (nm ext q : List Char)
    (hm1 : nm ≠ []) (hm2 : '\n' ∉ nm)
    (he1 : ext ≠ []) (he2 : ∀ c ∈ ext, c ≠ '?' ∧ c ≠ '\n' ∧ c ≠ '.')
    (hq1 : '\n' ∉ q) (hq2 : '.' ∉ q) :
    restGreedyDot (nm ++ ('.' :: (ext ++ ('?' :: q)))) = some (nm ++ ('.' :: ext)) := by
  have hld : lazyAfterDot (ext ++ ('?' :: q)) = some ext :=
    lazyAfterDot_exact q hq1 ext he1 (fun c hcc => ⟨(he2 c hcc).1, (he2 c hcc).2.1⟩)
  have hnd : '.' ∉ ext ++ ('?' :: q) := by
    intro hmem
    rcases List.mem_append.mp hmem with hmem | hmem
    · exact (he2 '.' hmem).2.2 rfl
    · rcases List.mem_cons.mp hmem with hmem | hmem
      · simp at hmem
      · exact hq2 hmem
  cases nm with
  | nil => exact absurd rfl hm1
  | cons n0 nm' =>
    have h0 : n0 ≠ '\n' := fun hh => hm2 (by simp [hh])
    rw [List.cons_append, restGreedyDot]
    simp [h0, restSplitAux_split _ ext hld hnd nm' (fun hh => hm2 (by simp [hh]))]

theorem fileNamePrefixAux_skip_id (X r : List Char) (hX : restGreedyDot X = some r) :
    ∀ id2, '_' ∉ id2 → '\n' ∉ id2 →
      fileNamePrefixAux (id2 ++ ('_' :: X)) = some r := by
  intro id2
  induction id2 with
  | nil =>
    intro _ _
    rw [List.nil_append, fileNamePrefixAux]
    simp [hX]
  | cons i id' ih =>
    intro hu hn
    have h1 : i ≠ '_' := fun hh => hu (by simp [hh])
    have h2 : i ≠ '\n' := fun hh => hn (by simp [hh])
    rw [List.cons_append, fileNamePrefixAux]
    simp [h1, h2, ih (fun hh => hu (by simp [hh])) (fun hh => hn (by simp [hh]))]

theorem sanitise_file_name_form (id nm ext q : List Char)
    (hi1 : id ≠ []) (hi2 : ∀ c ∈ id, c ≠ '_' ∧ c ≠ '\n')
    (hm1 : nm ≠ []) (hm2 : '\n' ∉ nm)
    (he1 : ext ≠ []) (he2 : ∀ c ∈ ext, c ≠ '?' ∧ c ≠ '\n' ∧ c ≠ '.')
    (hq1 : '\n' ∉ q) (hq2 : '.' ∉ q) :
    sanitise_file_name (id ++ ('_' :: (nm ++ ('.' :: (ext ++ ('?' :: q)))))) =
      .ok (nm ++ ('.' :: ext)) := by
  have hgd := restGreedyDot_exact nm ext q hm1 hm2 he1 he2 hq1 hq2
  have hpre := fileNamePrefixAux_skip_id _ _ hgd
  cases id with
  | nil => exact absurd rfl hi1
  | cons i0 id' =>
    have h0 : i0 ≠ '\n' := (hi2 i0 (by simp)).2
    rw [sanitise_file_name, List.cons_append, FILE_NAME_search]
    simp [h0, hpre id' (fun hh => (hi2 '_' (by simp [hh])).1 rfl)
      (fun hh => (hi2 '\n' (by simp [hh])).2 rfl)]

/-- C3 counterexample: a query string containing a dot defeats the
query-stripping of FILE_NAME_REGEX — the greedy `.+` runs to the last dot of
the string, so for `p001_img.png?v=1.2` the sanitiser keeps the query and
returns `img.png?v=1.2`, not `img.png`. -/
theorem C3_counterexample_dotted_query :
    RESOURCE_URL_search (lit "project/images/sub/p001_img.png?v=1.2") =
      some (lit "p001_img.png?v=1.2")
    ∧ sanitise_file_name (lit "p001_img.png?v=1.2") = .ok (lit "img.png?v=1.2")
    ∧ lit "img.png?v=1.2" ≠ lit "img.png" := by
  refine ⟨by decide, by decide, by decide⟩

/-- C3 amended: for resource URLs
`<prefix>(resources|images)/<subpath>/<id>_<name>.<ext>?<query>` in which the
prefix is empty or `project/`, the id segment contains no underscore, the
name/extension/query contain no slash or newline, the extension contains no
dot or question mark, and the query contains no dot, classification followed
by filename sanitisation yields exactly `<name>.<ext>` — underscores inside
the name itself are preserved.  (A dot inside the query defeats the
query-stripping, see the counterexample.) -/
theorem C3_sanitised_resource_filename :
    ∀ (pfx root subpath id nm ext q : List Char),
      (pfx = [] ∨ pfx = lit "project/") →
      (root = lit "resources/" ∨ root = lit "images/") →
      subpath ≠ [] → '\n' ∉ subpath →
      id ≠ [] → (∀ c ∈ id, c ≠ '_' ∧ c ≠ '/' ∧ c ≠ '\n') →
      nm ≠ [] → (∀ c ∈ nm, c ≠ '/' ∧ c ≠ '\n') →
      ext ≠ [] → (∀ c ∈ ext, c ≠ '?' ∧ c ≠ '/' ∧ c ≠ '\n' ∧ c ≠ '.') →
      (∀ c ∈ q, c ≠ '/' ∧ c ≠ '\n' ∧ c ≠ '.') →
      RESOURCE_URL_search (pfx ++ (root ++ (subpath ++ ('/' ::
          (id ++ ('_' :: (nm ++ ('.' :: (ext ++ ('?' :: q)))))))))) =
        some (id ++ ('_' :: (nm ++ ('.' :: (ext ++ ('?' :: q))))))
      ∧ sanitise_file_name (id ++ ('_' :: (nm ++ ('.' :: (ext ++ ('?' :: q)))))) =
        .ok (nm ++ ('.' :: ext)) := by
  intro pfx root subpath id nm ext q hp hr hs1 hs2 hi1 hi2 hm1 hm2 he1 he2 hq
  constructor
  · apply RESOURCE_URL_search_form pfx root subpath _ hp hr hs1 hs2
    · cases id with
      | nil => exact absurd rfl hi1
      | cons _ _ => simp
    · intro hmem
      simp only [List.mem_append, List.mem_cons] at hmem
      rcases hmem with h | h | h | h | h | h | h
      · exact (hi2 _ h).2.2 rfl
      · simp at h
      · exact (hm2 _ h).2 rfl
      · simp at h
      · exact (he2 _ h).2.2.1 rfl
      · simp at h
      · exact (hq _ h).2.1 rfl
    · intro hmem
      simp only [List.mem_append, List.mem_cons] at hmem
      rcases hmem with h | h | h | h | h | h | h
      · exact (hi2 _ h).2.1 rfl
      · simp at h
      · exact (hm2 _ h).1 rfl
      · simp at h
      · exact (he2 _ h).2.1 rfl
      · simp at h
      · exact (hq _ h).1 rfl
  · exact sanitise_file_name_form id nm ext q hi1
      (fun c hc => ⟨(hi2 c hc).1, (hi2 c hc).2.2⟩)
      hm1 (fun hmem => (hm2 '\n' hmem).2 rfl) he1
      (fun c hc => ⟨(he2 c hc).1, (he2 c hc).2.2.1, (he2 c hc).2.2.2⟩)
      (fun hmem => (hq '\n' hmem).2.1 rfl) (fun hmem => (hq '.' hmem).2.2 rfl)

/-- C3 witness: `project/images/sub/p096_my_name.png?123` sanitises to
`my_name.png`, keeping the underscore inside the name. -/
theorem C3_sanitised_resource_filename_witness :
    sanitise_file_name (lit "p096" ++ ('_' :: (lit "my_name" ++ ('.' ::
        (lit "png" ++ ('?' :: lit "123")))))) =
      .ok (lit "my_name" ++ ('.' :: lit "png")) :=
  (C3_sanitised_resource_filename (lit "project/") (lit "images/") (lit "sub")
    (lit "p096") (lit "my_name") (lit "png") (lit "123")
    (Or.inr rfl) (Or.inr rfl) (by decide) (by decide) (by decide) (by decide)
    (by decide) (by decide) (by decide) (by decide) (by decide)).2
